import Mathlib

/-!
# Verification of the vLLM `LLMEngine` request core

A shallow embedding of `vllm/engine/llm_engine.py` (the request engine core:
`add_request`, `step`, `_process_model_outputs`, `_advance_to_next_step`,
`_has_remaining_steps`, multi-step caching and the async output queue),
together with theorems settling the specification's claims about it.

Python's mutable object graph is rendered as explicit state passing: the live
`SequenceGroup` objects form a heap (`EngineState.groups`, a list indexed by
position), and what Python holds as an object reference is held here as an
index into that heap.  Exceptions are rendered as `Except`; where the claims
need the Python semantics that mutations performed before a `raise` persist,
functions return the state at the raise point alongside the error.

Collaborators that live outside the covered source file (the `Scheduler`,
the `SequenceGroupOutputProcessor` and the `StopChecker`) are modelled from
the specification; each such definition carries a doc comment starting with
`Modelled from the spec:`.  Wall-clock time, metrics, logging and tracing
are elided: they feed no claim.
-/

namespace VLLM

/-- Sequence status, from `SequenceStatus` in `vllm/sequence.py` as the spec
describes it: `waiting`, `running`, `swapped`, plus the terminal states. -/
inductive SeqStatus where
  | waiting
  | running
  | swapped
  | finished_stopped
  | finished_length_capped
  | finished_aborted
  | finished_ignored
deriving DecidableEq, Repr

namespace SeqStatus

/-- `SequenceStatus.is_finished`: the four terminal states. -/
def isFinished : SeqStatus → Bool
  | finished_stopped => true
  | finished_length_capped => true
  | finished_aborted => true
  | finished_ignored => true
  | _ => false

end SeqStatus

/-- Sampling parameters, restricted to the fields the engine core reads
(`vllm/sampling_params.py`).  `logprobs` and `prompt_logprobs` are optional
ints in the source; `max_tokens` may be `None` (unbounded). -/
structure SamplingParams where
  n : Nat := 1
  best_of : Nat := 1
  logprobs : Option Nat := none
  prompt_logprobs : Option Nat := none
  max_tokens : Option Nat := none
  ignore_eos : Bool := false
deriving DecidableEq, Repr

/-- One linear token stream (`Sequence` in `vllm/sequence.py`): prompt and
growing output token ids, a status, and the EOS token id the engine attached
at creation. -/
structure Sequence where
  seq_id : Nat
  prompt_token_ids : List Nat
  output_token_ids : List Nat := []
  status : SeqStatus := .waiting
  eos_token_id : Option Nat := none
deriving DecidableEq, Repr

/-- `Sequence.append_token_id`: append one sampled token.  (The logprob
payload is elided; no claim reads it.) -/
def Sequence.append_token_id (s : Sequence) (tok : Nat) : Sequence :=
  { s with output_token_ids := s.output_token_ids ++ [tok] }

/-- A request and its live child sequences (`SequenceGroup` in
`vllm/sequence.py`), with the per-group progress counter
`num_computed_tokens` that the engine updates. -/
structure SequenceGroup where
  request_id : String
  seqs : List Sequence
  sampling_params : SamplingParams
  num_computed_tokens : Nat := 0
deriving DecidableEq, Repr

namespace SequenceGroup

/-- `SequenceGroup.is_finished`: all child sequences are in a terminal
status. -/
def is_finished (g : SequenceGroup) : Bool :=
  g.seqs.all (fun s => s.status.isFinished)

/-- `SequenceGroup.update_num_computed_tokens`. -/
def update_num_computed_tokens (g : SequenceGroup) (chunk : Nat) : SequenceGroup :=
  { g with num_computed_tokens := g.num_computed_tokens + chunk }

end SequenceGroup

/-- Per-group multi-step state.  Modelled from the spec: "The cached
`ScheduleDecision` carries the `remaining_steps` counter across engine ticks
until it reaches zero"; the source keeps `num_steps` and `current_step` and
derives `remaining_steps`, which we carry directly (as an `Int`, since the
Python difference can go negative). -/
structure SGState where
  remaining_steps : Int
deriving DecidableEq, Repr

/-- The per-group metadata handed to the executor (`SequenceGroupMetadata`
in `vllm/sequence.py`), restricted to the fields the engine core reads. -/
structure SequenceGroupMetadata where
  request_id : String
  do_sample : Bool := true
  token_chunk_size : Nat := 1
  state : SGState := ⟨1⟩
deriving DecidableEq, Repr

/-- Modelled from the spec: `finish_step` "restores normal accounting" by
consuming one sub-step — the source advances `current_step`, which decrements
`remaining_steps` by one. -/
def SequenceGroupMetadata.finish_step (m : SequenceGroupMetadata) : SequenceGroupMetadata :=
  { m with state := ⟨m.state.remaining_steps - 1⟩ }

/-- One sample drawn for a sequence (`SequenceOutput`); the logprob payload
is elided. -/
structure Sample where
  output_token : Nat
deriving DecidableEq, Repr

/-- Per-group output of one forward pass (`CompletionSequenceGroupOutput`):
the list of samples (one under single-sample decoding). -/
structure SequenceGroupOutputs where
  samples : List Sample
deriving DecidableEq, Repr

/-- One `SamplerOutput`: the per-scheduled-group outputs of one forward
pass, in schedule order. -/
abbrev SamplerOutput := List SequenceGroupOutputs

/-- An entry of the scheduler decision (`ScheduledSequenceGroup` in
`vllm/core/scheduler.py`): a reference to the group (here: heap index) and
the token chunk scheduled for it. -/
structure ScheduledSequenceGroup where
  group_idx : Nat
  token_chunk_size : Nat := 1
deriving DecidableEq, Repr

/-- The scheduler decision (`SchedulerOutputs` in `vllm/core/scheduler.py`),
restricted to the fields the engine core reads.  Ignored groups are heap
indices as well. -/
structure SchedulerOutputs where
  scheduled_seq_groups : List ScheduledSequenceGroup
  ignored_seq_groups : List Nat := []
  num_lookahead_slots : Nat := 0
  blocks_to_swap_in : List (Nat × Nat) := []
  blocks_to_swap_out : List (Nat × Nat) := []
  blocks_to_copy : List (Nat × Nat) := []
  running_queue_size : Nat := 0
deriving DecidableEq, Repr

/-- Modelled from the spec: `SchedulerOutputs.is_empty` — the decision
schedules no group and moves no block. -/
def SchedulerOutputs.is_empty (so : SchedulerOutputs) : Bool :=
  so.scheduled_seq_groups.isEmpty && so.blocks_to_swap_in.isEmpty
    && so.blocks_to_swap_out.isEmpty && so.blocks_to_copy.isEmpty

/-- A user-visible output (`RequestOutput`), restricted to the identity and
the finished flag, which is what `RequestOutputFactory.create` derives from
the group at emission time. -/
structure RequestOutput where
  request_id : String
  finished : Bool
deriving DecidableEq, Repr

/-- `RequestOutputFactory.create` on a group, restricted as above. -/
def RequestOutput.create (g : SequenceGroup) : RequestOutput :=
  { request_id := g.request_id, finished := g.is_finished }

/-- `SchedulerOutputState` (llm_engine.py:83-88): the per-virtual-engine
multi-step cache. -/
structure SchedulerOutputState where
  seq_group_metadata_list : Option (List SequenceGroupMetadata) := none
  scheduler_outputs : Option SchedulerOutputs := none
  allow_async_output_proc : Bool := false
  last_output : Option SamplerOutput := none
deriving DecidableEq, Repr

/-- An entry of the async output queue (llm_engine.py:410-412):
`(sampler outputs, seq_group_metadata_list, scheduler_outputs)`. -/
structure QueueEntry where
  outputs : List SamplerOutput
  metadata : List SequenceGroupMetadata
  scheduler_outputs : SchedulerOutputs
deriving DecidableEq, Repr

/-- The engine state the claims touch: the heap of live sequence groups,
the per-virtual-engine scheduler queues (heap indices of unfinished groups),
the multi-step cache, the async output queue, the `request_outputs` buffer,
and the configuration flags `step` reads. -/
structure EngineState where
  groups : List SequenceGroup
  schedulers : List (List Nat)
  cached_scheduler_outputs : SchedulerOutputState := {}
  output_queue : List QueueEntry := []
  request_outputs : List RequestOutput := []
  pipeline_parallel_size : Nat := 1
  is_multi_step : Bool := false
  step_return_finished_only : Bool := false
  embedding_mode : Bool := false
deriving DecidableEq, Repr

/-- Replace the element at index `i` (identity when out of range) — the
rendering of an in-place mutation through a Python object reference. -/
def modifyIdx {α : Type} : List α → Nat → (α → α) → List α
  | [], _, _ => []
  | x :: xs, 0, f => f x :: xs
  | x :: xs, n + 1, f => x :: modifyIdx xs n f

namespace EngineState

/-- Dereference a group. -/
def getGroup (st : EngineState) (i : Nat) : Option SequenceGroup :=
  st.groups.get? i

/-- Mutate a group in place through its reference. -/
def setGroup (st : EngineState) (i : Nat) (f : SequenceGroup → SequenceGroup) :
    EngineState :=
  { st with groups := modifyIdx st.groups i f }

/-- Modelled from the spec: `Scheduler.get_num_unfinished_seq_groups`
returns the size of the scheduler's union of queues. -/
def schedCost (q : List Nat) : Nat := q.length

/-- Modelled from the spec: `Scheduler.has_unfinished_seqs` — some group in
the scheduler's queues is not finished. -/
def schedHasUnfinished (st : EngineState) (q : List Nat) : Bool :=
  q.any (fun i => match st.getGroup i with
    | some g => !g.is_finished
    | none => false)

/-- `LLMEngine.has_unfinished_requests` (llm_engine.py:1193-1196). -/
def has_unfinished_requests (st : EngineState) : Bool :=
  st.schedulers.any (fun q => st.schedHasUnfinished q)

end EngineState

/-! ## `add_request` (llm_engine.py:1009-1082, 617-676, 1084-1122, 1904-1909)

The tokenization / input-processing pipeline (`process_model_inputs`) is an
external collaborator; `add_request` below therefore receives the already
processed inputs, mirroring `_add_processed_request`'s argument.  The LoRA
guard at the top of `add_request` (line 1061) is kept in front of it. -/

/-- The processed inputs (`LLMInputs` / `EncoderDecoderLLMInputs`): the
decoder prompt token ids and, when present, the encoder prompt token ids. -/
structure ProcessedInputs where
  prompt_token_ids : List Nat
  encoder_prompt_token_ids : Option (List Nat) := none
deriving DecidableEq, Repr

/-- Engine-level configuration read on the admission path. -/
structure AddCfg where
  has_lora_config : Bool := false
  max_logprobs : Nat := 20
  is_encoder_decoder : Bool := false
  block_size : Nat := 16
  eos_token_id : Option Nat := none
deriving DecidableEq, Repr

/-- `LLMEngine._validate_model_inputs` (llm_engine.py:1904-1909): the
prompt-token list under the model-appropriate key must be non-empty
(`inputs.get(prompt_key)` is falsy for a missing key or an empty list). -/
def validate_model_inputs (cfg : AddCfg) (inputs : ProcessedInputs) :
    Except String Unit :=
  let key_val : List Nat :=
    if cfg.is_encoder_decoder then inputs.encoder_prompt_token_ids.getD []
    else inputs.prompt_token_ids
  if key_val.isEmpty then .error "Prompt cannot be empty" else .ok ()

/-- The logprobs guard of `_create_sequence_group_with_sampling`
(llm_engine.py:1096-1102).  Python's `x and x > max` with `x : Optional[int]`
is false for `None` and for `0`; `0 > max` is false anyway, so the option
test below is equivalent. -/
def logprobs_exceeded (cfg : AddCfg) (p : SamplingParams) : Bool :=
  (match p.logprobs with
   | some l => decide (l > cfg.max_logprobs)
   | none => false)
  || (match p.prompt_logprobs with
      | some l => decide (l > cfg.max_logprobs)
      | none => false)

/-- `_create_sequence_group_with_sampling` (llm_engine.py:1084-1122):
reject over-deep logprobs, then build the group around the single initial
sequence.  (The defensive clone and generation-config merge are elided:
they do not change the fields modelled here.) -/
def create_sequence_group_with_sampling (cfg : AddCfg) (request_id : String)
    (seq : Sequence) (p : SamplingParams) : Except String SequenceGroup :=
  if logprobs_exceeded cfg p then
    .error "Cannot request more than max_logprobs logprobs."
  else
    .ok { request_id := request_id, seqs := [seq], sampling_params := p }

/-- Python `costs.index(min(costs))` needs `min` of a non-empty list;
`listMin` matches it on non-empty input. -/
def listMin : List Nat → Nat
  | [] => 0
  | [x] => x
  | x :: y :: xs => min x (listMin (y :: xs))

/-- Index of the scheduler with minimal cost:
`costs.index(min(costs))` (llm_engine.py:671-675). -/
def minCostIndex (costs : List Nat) : Nat :=
  costs.indexOf (listMin costs)

/-- `LLMEngine._add_processed_request` (llm_engine.py:617-676): validate,
create the initial sequence and the group, then add the group to the
scheduler with the fewest unfinished sequence groups.  The fresh heap index
of the group plays the role of the Python object reference. -/
def add_processed_request (cfg : AddCfg) (request_id : String)
    (inputs : ProcessedInputs) (p : SamplingParams) (seq_id : Nat)
    (st : EngineState) : Except String EngineState :=
  match validate_model_inputs cfg inputs with
  | .error e => .error e
  | .ok () =>
    let seq : Sequence :=
      { seq_id := seq_id, prompt_token_ids := inputs.prompt_token_ids,
        eos_token_id := cfg.eos_token_id }
    match create_sequence_group_with_sampling cfg request_id seq p with
    | .error e => .error e
    | .ok seq_group =>
      let costs := st.schedulers.map EngineState.schedCost
      let j := minCostIndex costs
      let new_idx := st.groups.length
      .ok { st with
            groups := st.groups ++ [seq_group],
            schedulers := modifyIdx st.schedulers j (fun q => q ++ [new_idx]) }

/-- `LLMEngine.add_request` (llm_engine.py:1009-1082): the LoRA guard, then
(after external input processing, elided) `_add_processed_request`.
`lora_given` stands for `lora_request is not None`. -/
def add_request (cfg : AddCfg) (request_id : String) (inputs : ProcessedInputs)
    (p : SamplingParams) (lora_given : Bool) (seq_id : Nat)
    (st : EngineState) : Except String EngineState :=
  if lora_given && !cfg.has_lora_config then
    .error "Got lora_request but LoRA is not enabled!"
  else
    add_processed_request cfg request_id inputs p seq_id st

/-! ## Output processing (llm_engine.py:1205-1358)

The `SequenceGroupOutputProcessor` and the `StopChecker` live outside the
covered source; they are modelled from the specification (§4.4). -/

/-- Modelled from the spec: the `StopChecker` (§4.4): a child stops when it
emits the EOS token (unless `ignore_eos`) — status `finished_stopped` — or
hits `max_tokens` — status `finished_length_capped`.  (Stop strings and the
context-length cap need the detokenizer and are elided.) -/
def check_stop (p : SamplingParams) (s : Sequence) : Sequence :=
  if s.status.isFinished then s
  else if !p.ignore_eos
      && (match s.eos_token_id, s.output_token_ids.getLast? with
          | some e, some t => decide (t = e)
          | _, _ => false) then
    { s with status := .finished_stopped }
  else
    match p.max_tokens with
    | some m =>
        if s.output_token_ids.length ≥ m then
          { s with status := .finished_length_capped }
        else s
    | none => s

/-- Modelled from the spec: `SequenceGroupOutputProcessor.process_outputs`
(§4.4 and its asynchronous variant): when `is_async` the engine has already
pre-appended the tokens via `advance_to_next_step`, so only stop-checks run;
otherwise each step's sampled token is appended to the (single-sample)
child and then stop-checked.  Finished children are left alone. -/
def process_outputs (g : SequenceGroup) (outs : List SequenceGroupOutputs)
    (is_async : Bool) : SequenceGroup :=
  { g with seqs := g.seqs.map (fun s =>
      if s.status.isFinished then s
      else if is_async then check_stop g.sampling_params s
      else outs.foldl (fun s o =>
        match o.samples.head? with
        | some smp =>
            check_stop g.sampling_params (s.append_token_id smp.output_token)
        | none => s) s) }

/-- `LLMEngine._process_sequence_group_outputs` (llm_engine.py:1205-1215),
the embedding-model path: record the embeddings (elided) and mark every
child `FINISHED_STOPPED`. -/
def process_sequence_group_outputs_embedding (g : SequenceGroup) : SequenceGroup :=
  { g with seqs := g.seqs.map (fun s => { s with status := .finished_stopped }) }

/-- The per-group output slice (llm_engine.py:1246-1252, 1265-1268):
`create_output_by_sequence_group` transposes `outputs` so that group `i`
receives one `SequenceGroupOutputs` per executed step; for a single-step
output this is the singleton `[outputs[0][i]]`. -/
def outputsForGroup (outputs : List SamplerOutput) (i : Nat) :
    List SequenceGroupOutputs :=
  outputs.filterMap (fun so => so.get? i)

/-- One iteration of the processing loop of `_process_model_outputs`
(llm_engine.py:1256-1298), carrying the accumulated `finished_before`
index list.  A dangling heap index cannot arise (Python holds live object
references); it is a no-op here. -/
def processOne (is_async : Bool) (embedding_mode : Bool)
    (outputs : List SamplerOutput) (acc : EngineState × List Nat) (i : Nat)
    (meta : SequenceGroupMetadata) (scheduled : ScheduledSequenceGroup) :
    EngineState × List Nat :=
  let (st, fb) := acc
  match st.getGroup scheduled.group_idx with
  | none => (st, fb)
  | some g =>
    if g.is_finished then (st, fb ++ [i])
    else
      let output := outputsForGroup outputs i
      let st :=
        if !is_async then
          st.setGroup scheduled.group_idx
            (fun g => g.update_num_computed_tokens scheduled.token_chunk_size)
        else st
      if embedding_mode then
        (st.setGroup scheduled.group_idx process_sequence_group_outputs_embedding, fb)
      else
        -- `process_prompt_logprob` only attaches logprob data, which is elided.
        let st :=
          if meta.do_sample then
            st.setGroup scheduled.group_idx
              (fun g => process_outputs g output is_async)
          else st
        (st, fb)

/-- Modelled from the spec: `Scheduler.free_finished_seq_groups` drops the
finished groups from the scheduler's queues (their blocks are reclaimed;
block accounting is outside this model). -/
def free_finished_seq_groups (st : EngineState) : EngineState :=
  let keep := fun (i : Nat) =>
    match st.getGroup i with
    | some g => !g.is_finished
    | none => true
  { st with schedulers := st.schedulers.map (fun q => q.filter keep) }

/-- The output-creation loop of `_process_model_outputs`
(llm_engine.py:1304-1316): for every scheduled group not in
`finished_before`, emit a `RequestOutput` — when `step_return_finished_only`
is set, only if the group is finished. -/
def createOutputsLoop (st : EngineState) (ssg : List ScheduledSequenceGroup)
    (fb : List Nat) : List RequestOutput :=
  ssg.enum.filterMap (fun p =>
    if fb.contains p.1 then none
    else match st.getGroup p.2.group_idx with
    | none => none
    | some g =>
        if (if st.step_return_finished_only then g.is_finished else true) then
          some (RequestOutput.create g)
        else none)

/-- `LLMEngine._process_model_outputs` (llm_engine.py:1217-1329): optionally
clear `request_outputs`, pop one queue entry, apply the outputs to the
scheduled groups, free finished groups, then create the user-visible
outputs (always including the decision's ignored groups).  Stats and
tracing (lines 1322-1327) are elided.  The length assertion (line 1243)
becomes the error case. -/
def runProcessLoop (is_async : Bool) (em : Bool) (entry : QueueEntry)
    (st : EngineState) : EngineState × List Nat :=
  ((entry.metadata.zip entry.scheduler_outputs.scheduled_seq_groups).enum).foldl
    (fun acc p => processOne is_async em entry.outputs acc p.1 p.2.1 p.2.2)
    (st, [])

/-- The tail of `_process_model_outputs` (llm_engine.py:1300-1320): free the
finished groups, then build the `request_outputs` additions — the filtered
per-scheduled-group outputs followed by the decision's ignored groups. -/
def finalizeOutputs (entry : QueueEntry) (stfb : EngineState × List Nat) :
    EngineState :=
  let st := free_finished_seq_groups stfb.1
  let fb := stfb.2
  let new_outs := createOutputsLoop st entry.scheduler_outputs.scheduled_seq_groups fb
  let ignored_outs := entry.scheduler_outputs.ignored_seq_groups.filterMap
    (fun i => (st.getGroup i).map RequestOutput.create)
  { st with request_outputs := st.request_outputs ++ new_outs ++ ignored_outs }

/-- `_process_model_outputs` on one popped queue entry
(llm_engine.py:1242-1320): the length sanity check (assert, line 1243), the
processing loop, then `finalizeOutputs`.  `st` is the state with the entry
already popped. -/
def process_entry (st : EngineState) (is_async : Bool) (entry : QueueEntry) :
    Except String EngineState :=
  if entry.metadata.length ≠ entry.scheduler_outputs.scheduled_seq_groups.length then
    .error "len(seq_group_metadata_list) == len(scheduler_outputs.scheduled_seq_groups)"
  else
    .ok (finalizeOutputs entry (runProcessLoop is_async st.embedding_mode entry st))

def process_model_outputs_core (st : EngineState) (is_async : Bool) :
    Except String EngineState :=
  match st.output_queue with
  | [] => .ok st
  | entry :: rest => process_entry { st with output_queue := rest } is_async entry

/-- `LLMEngine._process_model_outputs` proper: the optional clearing of
`request_outputs` (llm_engine.py:1233-1234), then the pop-and-process core
(an empty queue returns immediately, line 1236). -/
def process_model_outputs (st : EngineState) (is_async : Bool)
    (clear_outputs : Bool := true) : Except String EngineState :=
  process_model_outputs_core
    (if clear_outputs then { st with request_outputs := [] } else st) is_async

/-- The in-place `seq.append_token_id(...)` on the group's single child
(llm_engine.py:1357-1358): append the sampled token to the head sequence
(the `len(seq_group.seqs) == 1` assert guards this). -/
def append_head (tok : Nat) (g : SequenceGroup) : SequenceGroup :=
  match g.seqs with
  | sq :: rest => { g with seqs := sq.append_token_id tok :: rest }
  | [] => g

/-- `LLMEngine._advance_to_next_step` (llm_engine.py:1331-1358): zip the
metadata, the per-group outputs and the scheduled groups (Python `zip`
truncates at the shortest); skip finished groups; update
`num_computed_tokens`; for sampling groups assert a single sample and a
single child, and append the sampled token to that child. -/
def advance_to_next_step (outs : List SequenceGroupOutputs)
    (mdl : List SequenceGroupMetadata) (ssg : List ScheduledSequenceGroup)
    (st : EngineState) : Except String EngineState :=
  match outs, mdl, ssg with
  | o :: outs', m :: mdl', sg :: ssg' =>
    match st.getGroup sg.group_idx with
    | none => advance_to_next_step outs' mdl' ssg' st
    | some g =>
      if g.is_finished then advance_to_next_step outs' mdl' ssg' st
      else
        let st := st.setGroup sg.group_idx
          (fun g => g.update_num_computed_tokens m.token_chunk_size)
        if m.do_sample then
          match o.samples with
          | [smp] =>
            if g.seqs.length ≠ 1 then
              .error "assert len(seq_group.seqs) == 1"
            else
              let st := st.setGroup sg.group_idx (append_head smp.output_token)
              advance_to_next_step outs' mdl' ssg' st
          | _ =>
            .error "Async output processor expects a single sample (i.e sampling_params.n == 1 and no sampling_params.best_of > 1)"
        else
          advance_to_next_step outs' mdl' ssg' st
  | _, _, _ => .ok st

/-! ## The step loop (llm_engine.py:1360-1591) -/

/-- `LLMEngine._has_remaining_steps` (llm_engine.py:1537-1555): `False` off
multi-step or for an absent/empty batch; otherwise all groups must agree on
`remaining_steps` (else `AssertionError`), and the answer is whether that
common value is positive. -/
def has_remaining_steps (is_multi_step : Bool)
    (mdl : Option (List SequenceGroupMetadata)) : Except String Bool :=
  if !is_multi_step then .ok false
  else match mdl with
  | none => .ok false
  | some [] => .ok false
  | some (m :: rest) =>
    if rest.any (fun g => g.state.remaining_steps ≠ m.state.remaining_steps) then
      .error "All running sequence groups should have the same remaining steps."
    else .ok (m.state.remaining_steps > 0)

/-- The errors `step` can raise. -/
inductive StepErr where
  | notImplementedError
  | assertionError (msg : String)
  | executorError
deriving DecidableEq, Repr

/-- What `Scheduler.schedule()` returns (external collaborator): the
metadata list, the decision, and the async-eligibility flag. -/
structure SchedResult where
  seq_group_metadata_list : List SequenceGroupMetadata
  scheduler_outputs : SchedulerOutputs
  allow_async_output_proc : Bool
deriving DecidableEq, Repr

/-- The result of one `step` call: the returned outputs or the raised
error, together with the engine state (for an error, the state at the
raise point; for internal assertion errors inside a processing call the
state at that call's entry). -/
abbrev StepResult := Except StepErr (List RequestOutput) × EngineState

/-- `LLMEngine._update_cached_scheduler_output` (llm_engine.py:1569-1580):
store the last `SamplerOutput` for pipeline parallelism.  (The CPU-tensor
assertions are about tensor placement and are elided.) -/
def update_cached_scheduler_output (st : EngineState)
    (output : List SamplerOutput) : EngineState :=
  if st.pipeline_parallel_size > 1 && !output.isEmpty then
    { st with cached_scheduler_outputs :=
        { st.cached_scheduler_outputs with last_output := output.getLast? } }
  else st

/-- Phase 1 of `step` (llm_engine.py:1426-1439): either call the scheduler
(draining pending async post-processing first when the new decision is not
async-eligible, and caching the decision for multi-step when lookahead
slots remain) or reuse the cached decision.  The returned `Bool` after the
async flag records whether the cache now aliases the returned metadata
list, which in Python is object identity. -/
def schedulePhaseFresh (sched : SchedResult) (st : EngineState) :
    List SequenceGroupMetadata × SchedulerOutputs × Bool × Bool × EngineState :=
  let mdl := sched.seq_group_metadata_list
  let so := sched.scheduler_outputs
  let allow := sched.allow_async_output_proc
  let cacheIt := st.is_multi_step && so.num_lookahead_slots > 0
  let st :=
    if cacheIt then
      { st with cached_scheduler_outputs :=
          { seq_group_metadata_list := some mdl, scheduler_outputs := some so,
            allow_async_output_proc := allow } }
    else st
  (mdl, so, allow, cacheIt, st)

def schedulePhase (sched : SchedResult) (hasRem : Bool) (st : EngineState) :
    Except StepErr
      (List SequenceGroupMetadata × SchedulerOutputs × Bool × Bool × EngineState) :=
  if !hasRem then
    match (if !sched.allow_async_output_proc && !st.output_queue.isEmpty
           then process_model_outputs st true true else .ok st) with
    | .error msg => .error (.assertionError msg)
    | .ok st => .ok (schedulePhaseFresh sched st)
  else
    match st.cached_scheduler_outputs.seq_group_metadata_list,
          st.cached_scheduler_outputs.scheduler_outputs with
    | some mdl, some so =>
        .ok (mdl, so, st.cached_scheduler_outputs.allow_async_output_proc, true, st)
    | _, _ => .error (.assertionError "seq_group_metadata_list is not None")

/-- Phase 2 of `step` (llm_engine.py:1447-1485): for a non-empty decision,
invoke the executor (its result is the parameter `execRes`; the
`ExecuteModelRequest` construction and `get_and_reset_finished_requests_ids`
only feed the external executor and are elided) and, in multi-step mode,
update the cached last output; for an empty decision, drain pending async
post-processing (asserting single-step mode) and use an empty output. -/
def executePhase (execRes : Except Unit (List SamplerOutput))
    (so : SchedulerOutputs) (st : EngineState) :
    Except StepErr (List SamplerOutput × EngineState) :=
  if !so.is_empty then
    match execRes with
    | .error _ => .error .executorError
    | .ok output =>
      let st := if st.is_multi_step then update_cached_scheduler_output st output else st
      .ok (output, st)
  else
    match (if !st.output_queue.isEmpty then
             if st.is_multi_step then
               Except.error "assert not self.scheduler_config.is_multi_step"
             else process_model_outputs st true true
           else .ok st) with
    | .error msg => .error (.assertionError msg)
    | .ok st => .ok ([], st)

/-- The tail of `step` (llm_engine.py:1521-1535): with no unfinished
requests, drain the async postprocessor (asserting single-step mode and
that the queue empties) and stop the remote worker loop (external); then
return `request_outputs`. -/
def drainPhase (st : EngineState) : StepResult :=
  if !st.has_unfinished_requests then
    match (if !st.output_queue.isEmpty then
             if st.is_multi_step then
               Except.error "assert not self.scheduler_config.is_multi_step"
             else process_model_outputs st true false
           else .ok st) with
    | .error msg => (.error (.assertionError msg), st)
    | .ok st =>
      if !st.output_queue.isEmpty then
        (.error (.assertionError "len(self.output_queue) == 0"), st)
      else (.ok st.request_outputs, st)
  else (.ok st.request_outputs, st)

/-- Lines 1502-1517 of `step`: with results pushed, pre-append the sampled
tokens via `_advance_to_next_step` when async post-processing is allowed
(asserting a single sampler output), and otherwise run the output processor
synchronously (stats and traces elided); then the no-unfinished drain
(lines 1521-1535). -/
def postExecProcess (allow : Bool) (output : List SamplerOutput)
    (mdl2 : List SequenceGroupMetadata) (so : SchedulerOutputs)
    (st5 : EngineState) : StepResult :=
  match (if !output.isEmpty && allow then
           if output.length ≠ 1 then
             Except.error (StepErr.assertionError
               "Multi step decoding does not work with async output processing.")
           else match output with
             | o0 :: _ =>
               (advance_to_next_step o0 mdl2 so.scheduled_seq_groups
                 st5).mapError StepErr.assertionError
             | [] => Except.ok st5
         else Except.ok st5) with
  | .error e => (.error e, st5)
  | .ok st6 =>
    match (if !allow then
             (process_model_outputs st6 false true).mapError
               StepErr.assertionError
           else Except.ok st6) with
    | .error e => (.error e, st6)
    | .ok st7 => drainPhase st7

/-- The tail of `step` after the executor returns
(llm_engine.py:1487-1535): apply `finish_step` to every group of the batch
in multi-step mode (writing the decremented metadata back into the cache
when the cache aliases the batch, which in Python is in-place mutation),
re-check the remaining steps, and either (no steps remain) reset the
multi-step cache, push the results onto the output queue, pre-append tokens
when async post-processing is allowed, and process synchronously otherwise
— or (steps remain) clear `request_outputs`; finally the no-unfinished
drain. -/
def finishPhase (mdl : List SequenceGroupMetadata) (so : SchedulerOutputs)
    (allow ca : Bool) (output : List SamplerOutput) (st2 : EngineState) :
    StepResult :=
  let mdl2 := if st2.is_multi_step
    then mdl.map SequenceGroupMetadata.finish_step else mdl
  let st3 :=
    if st2.is_multi_step && ca then
      { st2 with cached_scheduler_outputs :=
          { st2.cached_scheduler_outputs with
              seq_group_metadata_list := some mdl2 } }
    else st2
  match has_remaining_steps st3.is_multi_step (some mdl2) with
  | .error msg => (.error (.assertionError msg), st3)
  | .ok hasRem2 =>
    if !hasRem2 then
      let st4 := if st3.is_multi_step then
          { st3 with cached_scheduler_outputs := {} } else st3
      let st5 := { st4 with
        output_queue := st4.output_queue ++ [⟨output, mdl2, so⟩] }
      postExecProcess allow output mdl2 so st5
    else
      drainPhase { st3 with request_outputs := [] }

/-- `LLMEngine.step` (llm_engine.py:1360-1535), single-pipeline case.
`sched` is what `Scheduler.schedule()` would return this tick, `execRes`
what `ModelExecutor.execute_model` would return (or its failure). -/
def step (sched : SchedResult) (execRes : Except Unit (List SamplerOutput))
    (st : EngineState) : StepResult :=
  if st.pipeline_parallel_size > 1 then (.error .notImplementedError, st)
  else
    match has_remaining_steps st.is_multi_step
        st.cached_scheduler_outputs.seq_group_metadata_list with
    | .error msg => (.error (.assertionError msg), st)
    | .ok hasRem =>
      match schedulePhase sched hasRem st with
      | .error e => (.error e, st)
      | .ok (mdl, so, allow, cacheAliased, st1) =>
        if st1.is_multi_step && allow then
          (.error (.assertionError "assert not allow_async_output_proc"), st1)
        else
          match executePhase execRes so st1 with
          | .error e => (.error e, st1)
          | .ok (output, st2) => finishPhase mdl so allow cacheAliased output st2

/-- The observable token streams of a group: the `output_token_ids` of its
children, in order.  Used to state frame conditions ("no token appended"). -/
def groupTokens (g : SequenceGroup) : List (List Nat) :=
  g.seqs.map (fun s => s.output_token_ids)

/-- The "progress" observables of a group: its children's token streams and
its `num_computed_tokens` counter — exactly what the async output-processing
path must not advance a second time. -/
def groupProgress (g : SequenceGroup) : List (List Nat) × Nat :=
  (g.seqs.map (fun s => s.output_token_ids), g.num_computed_tokens)

/-- The invariant preserved by one async processing-loop iteration: the
output queue, the multi-step cache, the scheduler queues and all token
streams are untouched (only statuses and elided payloads change). -/
def asyncLoopFrame (st0 st : EngineState) : Prop :=
  st.output_queue = st0.output_queue
  ∧ st.cached_scheduler_outputs = st0.cached_scheduler_outputs
  ∧ st.request_outputs = st0.request_outputs
  ∧ st.schedulers = st0.schedulers
  ∧ ∀ j, (st.getGroup j).map groupProgress = (st0.getGroup j).map groupProgress

/-- A concrete multi-step engine state with one cached group that has two
remaining sub-steps (used to instantiate theorems at concrete inputs). -/
def c3State : EngineState :=
  { groups := [], schedulers := [[]], is_multi_step := true,
    cached_scheduler_outputs :=
      { seq_group_metadata_list := some [{ request_id := "r", state := ⟨2⟩ }],
        scheduler_outputs := some { scheduled_seq_groups := [{ group_idx := 0 }] },
        allow_async_output_proc := false } }

/-- A concrete schedule result. -/
def c3Sched : SchedResult :=
  { seq_group_metadata_list := [],
    scheduler_outputs := { scheduled_seq_groups := [] },
    allow_async_output_proc := false }

/-- A second, different concrete schedule result. -/
def c3SchedB : SchedResult :=
  { seq_group_metadata_list := [{ request_id := "x", state := ⟨1⟩ }],
    scheduler_outputs := { scheduled_seq_groups := [{ group_idx := 5 }] },
    allow_async_output_proc := false }

/-- The per-group observables that `_advance_to_next_step` cannot change:
whether the group is finished and how many children it has. -/
def groupShape (g : SequenceGroup) : Bool × Nat :=
  (g.is_finished, g.seqs.length)

/-- The engine configuration flags carried in the state. -/
def stFlags (st : EngineState) : Nat × Bool × Bool × Bool :=
  (st.pipeline_parallel_size, st.is_multi_step, st.step_return_finished_only,
   st.embedding_mode)

/-- A concrete single-step engine with one waiting single-child group. -/
def c4State : EngineState :=
  { groups := [{ request_id := "r",
                 seqs := [{ seq_id := 0, prompt_token_ids := [1] }],
                 sampling_params := {} }],
    schedulers := [[0]] }

/-- A concrete async-eligible schedule result for `c4State`. -/
def c4Sched : SchedResult :=
  { seq_group_metadata_list := [{ request_id := "r" }],
    scheduler_outputs := { scheduled_seq_groups := [{ group_idx := 0 }] },
    allow_async_output_proc := true }

/-- A concrete single-sample executor output for `c4State`. -/
def c4Output : List SamplerOutput := [[⟨[⟨42⟩]⟩]]

/-- A concrete engine for the `step_return_finished_only` scenario: one
group already finished before its queued outputs are processed. -/
def c6State : EngineState :=
  { groups := [{ request_id := "r",
                 seqs := [{ seq_id := 0, prompt_token_ids := [1],
                            status := .finished_stopped }],
                 sampling_params := {} }],
    schedulers := [[0]],
    output_queue := [{ outputs := [[⟨[⟨5⟩]⟩]],
                       metadata := [{ request_id := "r" }],
                       scheduler_outputs :=
                         { scheduled_seq_groups := [{ group_idx := 0 }] } }],
    step_return_finished_only := true }

/-- The queue entry of `c6State`. -/
def c6Entry : QueueEntry :=
  { outputs := [[⟨[⟨5⟩]⟩]],
    metadata := [{ request_id := "r" }],
    scheduler_outputs := { scheduled_seq_groups := [{ group_idx := 0 }] } }

/-- `c6State` with the entry popped. -/
def c6Popped : EngineState :=
  { groups := [{ request_id := "r",
                 seqs := [{ seq_id := 0, prompt_token_ids := [1],
                            status := .finished_stopped }],
                 sampling_params := {} }],
    schedulers := [[0]],
    output_queue := [],
    step_return_finished_only := true }

/-- The result of processing `c6State`'s entry. -/
def c6Result : EngineState :=
  { groups := [{ request_id := "r",
                 seqs := [{ seq_id := 0, prompt_token_ids := [1],
                            status := .finished_stopped }],
                 sampling_params := {} }],
    schedulers := [[]],
    output_queue := [],
    step_return_finished_only := true }

/-- An idle engine carrying a stale `request_outputs` buffer from the
previous tick: no live groups, empty scheduler queue, empty output queue. -/
def c8Stale : EngineState :=
  { groups := [], schedulers := [[]],
    request_outputs := [{ request_id := "old", finished := true }] }

/-- An empty schedule decision with `allow_async_output_proc = true`
(spec-modelled scheduler answer on an idle engine). -/
def c8SchedEmpty : SchedResult :=
  { seq_group_metadata_list := [],
    scheduler_outputs := { scheduled_seq_groups := [] },
    allow_async_output_proc := true }

/-- A fully idle engine: no live groups, empty queues, empty buffers. -/
def c8Empty : EngineState := { groups := [], schedulers := [[]] }

/-! ## Helper lemmas -/

theorem modifyIdx_length {α : Type} (l : List α) (i : Nat) (f : α → α) :
    (modifyIdx l i f).length = l.length := by
  induction l generalizing i with
  | nil => rfl
  | cons x xs ih =>
    cases i with
    | zero => rfl
    | succ n => simp [modifyIdx, ih]

theorem modifyIdx_get?_ne {α : Type} (l : List α) (i j : Nat) (f : α → α)
    (h : i ≠ j) : (modifyIdx l i f).get? j = l.get? j := by
  induction l generalizing i j with
  | nil => rfl
  | cons x xs ih =>
    cases i with
    | zero => cases j with
      | zero => exact absurd rfl h
      | succ m => rfl
    | succ n => cases j with
      | zero => rfl
      | succ m =>
        simp only [modifyIdx, List.get?]
        exact ih n m (fun hnm => h (by rw [hnm]))

theorem modifyIdx_get?_eq {α : Type} (l : List α) (i : Nat) (f : α → α) :
    (modifyIdx l i f).get? i = (l.get? i).map f := by
  induction l generalizing i with
  | nil => rfl
  | cons x xs ih =>
    cases i with
    | zero => rfl
    | succ n => simpa [modifyIdx] using ih n

theorem listMin_le_of_mem {l : List Nat} {x : Nat} (hx : x ∈ l) :
    listMin l ≤ x := by
  induction l with
  | nil => cases hx
  | cons a t ih =>
    cases t with
    | nil =>
      rcases List.mem_singleton.mp hx with rfl
      exact le_refl _
    | cons b t' =>
      rw [listMin]
      rcases List.mem_cons.mp hx with rfl | hx'
      · exact min_le_left _ _
      · exact le_trans (min_le_right _ _) (ih hx')

theorem listMin_mem {l : List Nat} (h : l ≠ []) : listMin l ∈ l := by
  induction l with
  | nil => exact absurd rfl h
  | cons a t ih =>
    cases t with
    | nil => simp [listMin]
    | cons b t' =>
      rw [listMin]
      rcases le_total a (listMin (b :: t')) with hle | hle
      · simp [min_eq_left hle]
      · have := ih (by simp)
        rw [min_eq_right hle]
        exact List.mem_cons_of_mem _ this

theorem minCostIndex_lt_length {costs : List Nat} (h : costs ≠ []) :
    minCostIndex costs < costs.length :=
  List.indexOf_lt_length.mpr (listMin_mem h)

theorem get?_minCostIndex {costs : List Nat} (h : costs ≠ []) :
    costs.get? (minCostIndex costs) = some (listMin costs) :=
  List.indexOf_get? (listMin_mem h)

theorem check_stop_tokens (p : SamplingParams) (s : Sequence) :
    (check_stop p s).output_token_ids = s.output_token_ids := by
  unfold check_stop
  split
  · rfl
  · split
    · rfl
    · split
      · split <;> rfl
      · rfl

theorem process_outputs_async_progress (g : SequenceGroup)
    (outs : List SequenceGroupOutputs) :
    groupProgress (process_outputs g outs true) = groupProgress g := by
  unfold process_outputs groupProgress
  simp only [List.map_map, Prod.mk.injEq]
  refine ⟨?_, trivial⟩
  apply List.map_congr_left
  intro s _
  by_cases hs : s.status.isFinished
  · simp [hs]
  · simp [hs, check_stop_tokens]

theorem process_sequence_group_outputs_embedding_progress (g : SequenceGroup) :
    groupProgress (process_sequence_group_outputs_embedding g)
      = groupProgress g := by
  unfold process_sequence_group_outputs_embedding groupProgress
  simp [List.map_map]

theorem setGroup_map_proj {β : Type} (P : SequenceGroup → β)
    (st : EngineState) (i : Nat) (f : SequenceGroup → SequenceGroup)
    (hf : ∀ g, P (f g) = P g) (j : Nat) :
    ((st.setGroup i f).getGroup j).map P = (st.getGroup j).map P := by
  by_cases h : i = j
  · subst h
    simp only [EngineState.getGroup, EngineState.setGroup, modifyIdx_get?_eq,
      Option.map_map]
    cases st.groups.get? i with
    | none => rfl
    | some g => simp [Function.comp, hf]
  · simp only [EngineState.getGroup, EngineState.setGroup,
      modifyIdx_get?_ne _ _ _ _ h]

theorem asyncLoopFrame_refl (st : EngineState) : asyncLoopFrame st st :=
  ⟨rfl, rfl, rfl, rfl, fun _ => rfl⟩

theorem asyncLoopFrame_setGroup (st0 st : EngineState) (i : Nat)
    (f : SequenceGroup → SequenceGroup)
    (hf : ∀ g, groupProgress (f g) = groupProgress g)
    (h : asyncLoopFrame st0 st) : asyncLoopFrame st0 (st.setGroup i f) := by
  obtain ⟨h1, h2, h3, h4, h5⟩ := h
  refine ⟨h1, h2, h3, h4, fun j => ?_⟩
  rw [setGroup_map_proj groupProgress st i f hf j]
  exact h5 j

theorem processOne_async_frame (em : Bool) (outs : List SamplerOutput)
    (st0 : EngineState) (acc : EngineState × List Nat) (i : Nat)
    (m : SequenceGroupMetadata) (sg : ScheduledSequenceGroup)
    (h : asyncLoopFrame st0 acc.1) :
    asyncLoopFrame st0 (processOne true em outs acc i m sg).1 := by
  obtain ⟨st, fb⟩ := acc
  rcases hG : st.getGroup sg.group_idx with _ | g
  · simpa only [processOne, hG] using h
  · by_cases hfin : g.is_finished
    · simpa only [processOne, hG, hfin, if_true] using h
    · by_cases hem : em
      · have goal := asyncLoopFrame_setGroup st0 st sg.group_idx
          process_sequence_group_outputs_embedding
          (fun g => process_sequence_group_outputs_embedding_progress g) h
        simp only [processOne, hG, hfin, hem]
        simpa using goal
      · by_cases hds : m.do_sample
        · have goal := asyncLoopFrame_setGroup st0 st sg.group_idx
            (fun g => process_outputs g (outputsForGroup outs i) true)
            (fun g => process_outputs_async_progress g _) h
          simp only [processOne, hG, hfin, hem, hds]
          simpa using goal
        · simp only [processOne, hG, hfin, hem, hds]
          simpa using h

theorem foldl_pres {α β : Type} (P : α → Prop) (f : α → β → α)
    (h : ∀ a b, P a → P (f a b)) :
    ∀ (l : List β) (a : α), P a → P (l.foldl f a) := by
  intro l
  induction l with
  | nil => intro a ha; exact ha
  | cons b t ih => intro a ha; exact ih (f a b) (h a b ha)

/-- Frame of the async processing loop. -/
theorem runProcessLoop_async_frame (em : Bool) (entry : QueueEntry)
    (st : EngineState) :
    asyncLoopFrame st (runProcessLoop true em entry st).1 :=
  foldl_pres (fun (acc : EngineState × List Nat) => asyncLoopFrame st acc.1) _
    (fun acc p hp => processOne_async_frame _ _ _ _ _ _ _ hp) _ _
    (asyncLoopFrame_refl st)

/-- Frame of `finalizeOutputs`: only `schedulers` and `request_outputs`
change; queue, cache and all groups (hence tokens) are untouched. -/
theorem finalizeOutputs_frame (entry : QueueEntry)
    (stfb : EngineState × List Nat) :
    (finalizeOutputs entry stfb).output_queue = stfb.1.output_queue
    ∧ (finalizeOutputs entry stfb).cached_scheduler_outputs
        = stfb.1.cached_scheduler_outputs
    ∧ (finalizeOutputs entry stfb).groups = stfb.1.groups :=
  ⟨rfl, rfl, rfl⟩

/-- Frame of `process_entry` in async mode: the queue, the cache and all
token streams of the popped state are preserved. -/
theorem process_entry_async_frame (s : EngineState) (entry : QueueEntry)
    (st' : EngineState) (h : process_entry s true entry = .ok st') :
    st'.output_queue = s.output_queue
    ∧ st'.cached_scheduler_outputs = s.cached_scheduler_outputs
    ∧ ∀ j, (st'.getGroup j).map groupProgress = (s.getGroup j).map groupProgress := by
  unfold process_entry at h
  by_cases hlen : entry.metadata.length
      = entry.scheduler_outputs.scheduled_seq_groups.length
  · rw [if_neg (fun hne => hne hlen)] at h
    cases h
    obtain ⟨f1, f2, f3, f4, f5⟩ :=
      runProcessLoop_async_frame s.embedding_mode entry s
    refine ⟨?_, ?_, ?_⟩
    · show (runProcessLoop true s.embedding_mode entry s).1.output_queue
        = s.output_queue
      exact f1
    · show (runProcessLoop true s.embedding_mode entry s).1.cached_scheduler_outputs
        = s.cached_scheduler_outputs
      exact f2
    · intro j
      show ((runProcessLoop true s.embedding_mode entry s).1.getGroup j).map groupProgress
        = (s.getGroup j).map groupProgress
      exact f5 j
  · rw [if_pos hlen] at h
    exact Except.noConfusion h

/-- Frame of the core of an async `_process_model_outputs` call: the queue
loses at most its head entry, the multi-step cache is untouched, and no
token is appended to any sequence. -/
theorem process_model_outputs_core_async_frame (s : EngineState)
    (st' : EngineState) (h : process_model_outputs_core s true = .ok st') :
    (st'.output_queue = s.output_queue
       ∨ st'.output_queue = s.output_queue.drop 1)
    ∧ st'.cached_scheduler_outputs = s.cached_scheduler_outputs
    ∧ ∀ j, (st'.getGroup j).map groupProgress = (s.getGroup j).map groupProgress := by
  unfold process_model_outputs_core at h
  rcases hqq : s.output_queue with _ | ⟨entry, rest⟩
  · rw [hqq] at h
    have h2 : (Except.ok s : Except String EngineState) = .ok st' := h
    cases h2
    exact ⟨Or.inl hqq, rfl, fun j => rfl⟩
  · rw [hqq] at h
    have h2 : process_entry { s with output_queue := rest } true entry
        = .ok st' := h
    obtain ⟨g1, g2, g3⟩ := process_entry_async_frame _ _ _ h2
    exact ⟨Or.inr g1, g2, fun j => g3 j⟩

/-- Frame of a full async `_process_model_outputs` call (any
`clear_outputs`). -/
theorem process_model_outputs_async_frame (st : EngineState) (c : Bool)
    (st' : EngineState) (h : process_model_outputs st true c = .ok st') :
    (st'.output_queue = st.output_queue
       ∨ st'.output_queue = st.output_queue.drop 1)
    ∧ st'.cached_scheduler_outputs = st.cached_scheduler_outputs
    ∧ ∀ j, (st'.getGroup j).map groupProgress = (st.getGroup j).map groupProgress := by
  unfold process_model_outputs at h
  rcases process_model_outputs_core_async_frame _ _ h with ⟨h1, h2, h3⟩
  by_cases hc : c = true
  · rw [hc] at h1 h2 h3
    exact ⟨h1, h2, h3⟩
  · simp only [hc, if_false] at h1 h2 h3
    exact ⟨h1, h2, h3⟩

/-! ## Claim theorems -/

/-- C10: with `pipeline_parallel_size > 1`, every call to `step()` raises
`NotImplementedError` first thing — before scheduling or executing anything,
so the state is returned untouched and the result does not depend on the
scheduler or the executor. -/
theorem step_pp_gt_one_not_implemented (sched : SchedResult)
    (execRes : Except Unit (List SamplerOutput)) (st : EngineState)
    (h : st.pipeline_parallel_size > 1) :
    step sched execRes st = (.error .notImplementedError, st) := by
  simp [step, h]

/-- Witness for C10 at a concrete engine with two pipeline stages. -/
theorem step_pp_gt_one_not_implemented_witness :
    (({ groups := [], schedulers := [[], []],
        pipeline_parallel_size := 2 } : EngineState).pipeline_parallel_size > 1)
    ∧ step { seq_group_metadata_list := [],
             scheduler_outputs := { scheduled_seq_groups := [] },
             allow_async_output_proc := false } (.ok [])
        { groups := [], schedulers := [[], []], pipeline_parallel_size := 2 }
      = (.error .notImplementedError,
         { groups := [], schedulers := [[], []], pipeline_parallel_size := 2 }) :=
  ⟨by decide,
   step_pp_gt_one_not_implemented _ _ _ (by decide)⟩

/-- C9: `_add_processed_request` adds the newly created sequence group to
the scheduler whose number of unfinished sequence groups is minimal among
all virtual engines at the moment of admission (the first such scheduler,
as `costs.index(min(costs))` picks). -/
theorem add_processed_request_routes_min (cfg : AddCfg) (rid : String)
    (inputs : ProcessedInputs) (p : SamplingParams) (sid : Nat)
    (st : EngineState)
    (hval : validate_model_inputs cfg inputs = .ok ())
    (hlog : logprobs_exceeded cfg p = false)
    (hne : st.schedulers ≠ []) :
    add_processed_request cfg rid inputs p sid st = .ok
      { st with
        groups := st.groups ++
          [{ request_id := rid,
             seqs := [{ seq_id := sid,
                        prompt_token_ids := inputs.prompt_token_ids,
                        eos_token_id := cfg.eos_token_id }],
             sampling_params := p }],
        schedulers := modifyIdx st.schedulers
          (minCostIndex (st.schedulers.map EngineState.schedCost))
          (fun q => q ++ [st.groups.length]) }
    ∧ minCostIndex (st.schedulers.map EngineState.schedCost) < st.schedulers.length
    ∧ ∀ k qmin qk,
        st.schedulers.get?
          (minCostIndex (st.schedulers.map EngineState.schedCost)) = some qmin →
        st.schedulers.get? k = some qk →
        EngineState.schedCost qmin ≤ EngineState.schedCost qk := by
  have hcne : st.schedulers.map EngineState.schedCost ≠ [] := by
    simpa using hne
  refine ⟨?_, ?_, ?_⟩
  · simp [add_processed_request, hval, create_sequence_group_with_sampling, hlog]
  · have := minCostIndex_lt_length hcne
    simpa using this
  · intro k qmin qk hqmin hqk
    set costs := st.schedulers.map EngineState.schedCost with hcosts
    have h1 : costs.get? (minCostIndex costs) = some (listMin costs) :=
      get?_minCostIndex hcne
    have h2 : costs.get? (minCostIndex costs)
        = (st.schedulers.get? (minCostIndex costs)).map EngineState.schedCost := by
      rw [hcosts, List.get?_map]
    rw [hqmin] at h2
    have hmin_eq : EngineState.schedCost qmin = listMin costs := by
      rw [h2] at h1
      exact (Option.some.inj h1)
    have h3 : costs.get? k = some (EngineState.schedCost qk) := by
      rw [hcosts, List.get?_map, hqk]; rfl
    have hk_mem : EngineState.schedCost qk ∈ costs := List.get?_mem h3
    rw [hmin_eq]
    exact listMin_le_of_mem hk_mem

/-- Witness for C9: three schedulers with 1, 0 and 2 unfinished groups; the
request is routed to the second one. -/
theorem add_processed_request_routes_min_witness :
    (validate_model_inputs {} { prompt_token_ids := [3, 4] } = .ok ()
     ∧ logprobs_exceeded {} {} = false
     ∧ ({ groups :=
            [{ request_id := "a", seqs := [], sampling_params := {} },
             { request_id := "b", seqs := [], sampling_params := {} },
             { request_id := "c", seqs := [], sampling_params := {} }],
          schedulers := [[0], [], [1, 2]] } : EngineState).schedulers ≠ [])
    ∧ (add_processed_request {} "r" { prompt_token_ids := [3, 4] } {} 7
        { groups :=
            [{ request_id := "a", seqs := [], sampling_params := {} },
             { request_id := "b", seqs := [], sampling_params := {} },
             { request_id := "c", seqs := [], sampling_params := {} }],
          schedulers := [[0], [], [1, 2]] } = .ok
        { groups :=
            [{ request_id := "a", seqs := [], sampling_params := {} },
             { request_id := "b", seqs := [], sampling_params := {} },
             { request_id := "c", seqs := [], sampling_params := {} }] ++
            [{ request_id := "r",
               seqs := [{ seq_id := 7, prompt_token_ids := [3, 4],
                          eos_token_id := none }],
               sampling_params := {} }],
          schedulers := modifyIdx [[0], [], [1, 2]]
            (minCostIndex ([[0], [], [1, 2]].map EngineState.schedCost))
            (fun q => q ++ [3]) }
       ∧ minCostIndex ([[0], [], [1, 2]].map EngineState.schedCost) < 3
       ∧ ∀ k qmin qk,
           [[0], [], ([1, 2] : List Nat)].get?
             (minCostIndex ([[0], [], [1, 2]].map EngineState.schedCost)) = some qmin →
           [[0], [], ([1, 2] : List Nat)].get? k = some qk →
           EngineState.schedCost qmin ≤ EngineState.schedCost qk) :=
  ⟨⟨rfl, rfl, by simp⟩,
   add_processed_request_routes_min _ _ _ _ _ _ rfl rfl (by simp)⟩

/-- C7: `add_request` admits no request that fails validation: if the
processed prompt token list (under the model-appropriate key) is empty, or
a LoRA request is given while the engine has no LoRA config, or the
requested `logprobs` / `prompt_logprobs` depth exceeds `max_logprobs`, the
call returns an error and never an updated engine state — so no sequence
group is added to any scheduler. -/
theorem add_request_validation_rejects (cfg : AddCfg) (rid : String)
    (inputs : ProcessedInputs) (p : SamplingParams) (lg : Bool) (sid : Nat)
    (st : EngineState)
    (h : (lg = true ∧ cfg.has_lora_config = false)
       ∨ (if cfg.is_encoder_decoder then inputs.encoder_prompt_token_ids.getD []
          else inputs.prompt_token_ids) = []
       ∨ logprobs_exceeded cfg p = true) :
    ∀ st', add_request cfg rid inputs p lg sid st ≠ .ok st' := by
  intro st' hok
  unfold add_request at hok
  by_cases hl : (lg && !cfg.has_lora_config) = true
  · simp [hl] at hok
  · simp only [hl, Bool.false_eq_true, if_false] at hok
    unfold add_processed_request at hok
    cases hv : validate_model_inputs cfg inputs with
    | error e => rw [hv] at hok; cases hok
    | ok u =>
      cases u
      rw [hv] at hok
      rcases h with ⟨hlg, hcfg⟩ | hkey | hlog
      · rw [hlg, hcfg] at hl; simp at hl
      · unfold validate_model_inputs at hv
        rw [hkey] at hv
        simp at hv
      · simp only [create_sequence_group_with_sampling, hlog, if_true] at hok
        cases hok

/-- Witness for C7: a request with `logprobs` deeper than `max_logprobs`
is rejected. -/
theorem add_request_validation_rejects_witness :
    ((true = true ∧ ({ has_lora_config := false, max_logprobs := 5 } : AddCfg).has_lora_config = false)
      ∨ (if ({ has_lora_config := false, max_logprobs := 5 } : AddCfg).is_encoder_decoder
         then ({ prompt_token_ids := [1] } : ProcessedInputs).encoder_prompt_token_ids.getD []
         else ({ prompt_token_ids := [1] } : ProcessedInputs).prompt_token_ids) = []
      ∨ logprobs_exceeded { has_lora_config := false, max_logprobs := 5 }
          { logprobs := some 6 } = true)
    ∧ ∀ st', add_request { has_lora_config := false, max_logprobs := 5 } "r"
        { prompt_token_ids := [1] } { logprobs := some 6 } true 0
        { groups := [], schedulers := [[]] } ≠ .ok st' :=
  ⟨Or.inl ⟨rfl, rfl⟩,
   add_request_validation_rejects _ _ _ _ _ _ _ (Or.inl ⟨rfl, rfl⟩)⟩

/-- C1 counterexample: `add_request` performs no duplicate-id check.  With
request `"r"` already admitted and still in flight (one waiting, unfinished
group), a second `add_request` with the same id does not fail: it succeeds
and adds a second sequence group with the same request id to a scheduler
queue. -/
theorem add_request_duplicate_not_rejected :
    add_request {} "r" { prompt_token_ids := [1] } {} false 0
      { groups := [], schedulers := [[]] }
      = .ok { groups := [{ request_id := "r",
                           seqs := [{ seq_id := 0, prompt_token_ids := [1] }],
                           sampling_params := {} }],
              schedulers := [[0]] }
    ∧ ({ request_id := "r",
         seqs := [{ seq_id := 0, prompt_token_ids := [1] }],
         sampling_params := {} } : SequenceGroup).is_finished = false
    ∧ add_request {} "r" { prompt_token_ids := [1] } {} false 1
        { groups := [{ request_id := "r",
                       seqs := [{ seq_id := 0, prompt_token_ids := [1] }],
                       sampling_params := {} }],
          schedulers := [[0]] }
      = .ok { groups := [{ request_id := "r",
                           seqs := [{ seq_id := 0, prompt_token_ids := [1] }],
                           sampling_params := {} },
                         { request_id := "r",
                           seqs := [{ seq_id := 1, prompt_token_ids := [1] }],
                           sampling_params := {} }],
              schedulers := [[0, 1]] } :=
  ⟨rfl, rfl, rfl⟩

/-- C1 (amended): `add_request` does not check for duplicate request ids.
Even when a group with the same id is already in flight (present and not
finished), a second call whose inputs pass validation succeeds and adds a
second, independent sequence group with that id to the least-loaded
scheduler. -/
theorem add_request_duplicate_succeeds (cfg : AddCfg) (rid : String)
    (inputs : ProcessedInputs) (p : SamplingParams) (sid : Nat)
    (st : EngineState)
    (hval : validate_model_inputs cfg inputs = .ok ())
    (hlog : logprobs_exceeded cfg p = false)
    (hinflight : ∃ i g, st.getGroup i = some g ∧ g.request_id = rid
       ∧ g.is_finished = false) :
    add_request cfg rid inputs p false sid st = .ok
      { st with
        groups := st.groups ++
          [{ request_id := rid,
             seqs := [{ seq_id := sid,
                        prompt_token_ids := inputs.prompt_token_ids,
                        eos_token_id := cfg.eos_token_id }],
             sampling_params := p }],
        schedulers := modifyIdx st.schedulers
          (minCostIndex (st.schedulers.map EngineState.schedCost))
          (fun q => q ++ [st.groups.length]) } := by
  simp [add_request, add_processed_request, hval,
    create_sequence_group_with_sampling, hlog]

/-- Witness for the amended C1, re-running the duplicate admission of the
counterexample through the general theorem. -/
theorem add_request_duplicate_succeeds_witness :
    (validate_model_inputs {} { prompt_token_ids := [1] } = .ok ()
     ∧ logprobs_exceeded {} {} = false
     ∧ ∃ i g, ({ groups := [{ request_id := "r",
                              seqs := [{ seq_id := 0, prompt_token_ids := [1] }],
                              sampling_params := {} }],
                 schedulers := [[0]] } : EngineState).getGroup i = some g
         ∧ g.request_id = "r" ∧ g.is_finished = false)
    ∧ add_request {} "r" { prompt_token_ids := [1] } {} false 1
        { groups := [{ request_id := "r",
                       seqs := [{ seq_id := 0, prompt_token_ids := [1] }],
                       sampling_params := {} }],
          schedulers := [[0]] }
      = .ok { groups := [{ request_id := "r",
                            seqs := [{ seq_id := 0, prompt_token_ids := [1] }],
                            sampling_params := {} }] ++
                [{ request_id := "r",
                   seqs := [{ seq_id := 1, prompt_token_ids := [1] }],
                   sampling_params := {} }],
              schedulers := modifyIdx [[0]]
                (minCostIndex ([[0]].map EngineState.schedCost))
                (fun q => q ++ [1]) } :=
  ⟨⟨rfl, rfl, 0, _, rfl, rfl, rfl⟩,
   add_request_duplicate_succeeds _ _ _ _ _ _ rfl rfl ⟨0, _, rfl, rfl, rfl⟩⟩

theorem map_tokens_of_map_progress {a b : Option SequenceGroup}
    (h : a.map groupProgress = b.map groupProgress) :
    a.map groupTokens = b.map groupTokens := by
  cases a with
  | none =>
    cases b with
    | none => rfl
    | some g => exact absurd h (by simp)
  | some g1 =>
    cases b with
    | none => exact absurd h (by simp)
    | some g2 =>
      injection h with h'
      show some (groupTokens g1) = some (groupTokens g2)
      exact congrArg some (congrArg Prod.fst h')

/-- Frame of `schedulePhase`: relative to the state at the top of `step`,
the pre-execution phase appends no token, pushes nothing onto the output
queue (it at most pops one entry in the pre-drain), and never decrements a
`remaining_steps` counter — the cache holds either its old metadata or the
scheduler's fresh, un-decremented metadata. -/
theorem schedulePhase_frame (sched : SchedResult) (hasRem : Bool)
    (st : EngineState) (mdl : List SequenceGroupMetadata)
    (so : SchedulerOutputs) (allow ca : Bool) (st1 : EngineState)
    (h : schedulePhase sched hasRem st = .ok (mdl, so, allow, ca, st1)) :
    (∀ j, (st1.getGroup j).map groupTokens = (st.getGroup j).map groupTokens)
    ∧ (st1.output_queue = st.output_queue
         ∨ st1.output_queue = st.output_queue.drop 1)
    ∧ (st1.cached_scheduler_outputs.seq_group_metadata_list
         = st.cached_scheduler_outputs.seq_group_metadata_list
       ∨ st1.cached_scheduler_outputs.seq_group_metadata_list
         = some sched.seq_group_metadata_list) := by
  unfold schedulePhase at h
  cases hasRem with
  | false =>
    rw [if_pos (by decide : (!false) = true)] at h
    have key : ∀ (stM : EngineState),
        (∀ j, (stM.getGroup j).map groupProgress = (st.getGroup j).map groupProgress) →
        (stM.output_queue = st.output_queue
           ∨ stM.output_queue = st.output_queue.drop 1) →
        stM.cached_scheduler_outputs = st.cached_scheduler_outputs →
        (Except.ok (schedulePhaseFresh sched stM)
          : Except StepErr (List SequenceGroupMetadata × SchedulerOutputs
              × Bool × Bool × EngineState)) = .ok (mdl, so, allow, ca, st1) →
        (∀ j, (st1.getGroup j).map groupTokens = (st.getGroup j).map groupTokens)
        ∧ (st1.output_queue = st.output_queue
             ∨ st1.output_queue = st.output_queue.drop 1)
        ∧ (st1.cached_scheduler_outputs.seq_group_metadata_list
             = st.cached_scheduler_outputs.seq_group_metadata_list
           ∨ st1.cached_scheduler_outputs.seq_group_metadata_list
             = some sched.seq_group_metadata_list) := by
      intro stM htok hq hc hok
      simp only [schedulePhaseFresh, Except.ok.injEq, Prod.mk.injEq] at hok
      obtain ⟨h1, h2, h3, h4, h5⟩ := hok
      subst h5
      by_cases hcache : (stM.is_multi_step
          && decide (sched.scheduler_outputs.num_lookahead_slots > 0)) = true
      · rw [if_pos hcache]
        exact ⟨fun j => map_tokens_of_map_progress (htok j), hq, Or.inr rfl⟩
      · rw [if_neg hcache]
        exact ⟨fun j => map_tokens_of_map_progress (htok j), hq,
          Or.inl (congrArg SchedulerOutputState.seq_group_metadata_list hc)⟩
    by_cases hdrain : (!sched.allow_async_output_proc
        && !st.output_queue.isEmpty) = true
    · rw [if_pos hdrain] at h
      rcases hp : process_model_outputs st true true with e | stP
      · rw [hp] at h
        exact Except.noConfusion h
      · rw [hp] at h
        obtain ⟨f1, f2, f3⟩ := process_model_outputs_async_frame st true stP hp
        exact key stP f3 f1 f2 h
    · rw [if_neg hdrain] at h
      exact key st (fun j => rfl) (Or.inl rfl) rfl h
  | true =>
    rw [if_neg (by decide : ¬ (!true) = true)] at h
    rcases hm : st.cached_scheduler_outputs.seq_group_metadata_list with _ | mdl0 <;>
      rcases hs : st.cached_scheduler_outputs.scheduler_outputs with _ | so0 <;>
      rw [hm, hs] at h
    · exact Except.noConfusion h
    · exact Except.noConfusion h
    · exact Except.noConfusion h
    · have h2 : (Except.ok (mdl0, so0,
          st.cached_scheduler_outputs.allow_async_output_proc, true, st)
          : Except StepErr (List SequenceGroupMetadata × SchedulerOutputs
              × Bool × Bool × EngineState)) = .ok (mdl, so, allow, ca, st1) := h
      simp only [Except.ok.injEq, Prod.mk.injEq] at h2
      obtain ⟨h1, h2', h3, h4, h5⟩ := h2
      subst h5
      exact ⟨fun j => rfl, Or.inl rfl, Or.inl hm⟩

/-- C2: if `ModelExecutor.execute_model` raises during `step()`, the error
propagates out of `step()` and no sequence state is mutated for that step:
relative to the state at entry, no token has been appended to any sequence,
no entry has been pushed onto the output queue (the pre-execution drain can
only pop one), and `finish_step` has not been reached for any group (no
`remaining_steps` counter was decremented: the cache carries either its old
metadata or the scheduler's fresh metadata unchanged). -/
theorem step_executor_error_frame (sched : SchedResult) (st : EngineState)
    (mdl : List SequenceGroupMetadata) (so : SchedulerOutputs)
    (allow ca : Bool) (st1 : EngineState) (hasRem : Bool)
    (hpp : ¬ st.pipeline_parallel_size > 1)
    (hrem : has_remaining_steps st.is_multi_step
      st.cached_scheduler_outputs.seq_group_metadata_list = .ok hasRem)
    (hsched : schedulePhase sched hasRem st = .ok (mdl, so, allow, ca, st1))
    (hassert : (st1.is_multi_step && allow) = false)
    (hne : so.is_empty = false) :
    step sched (.error ()) st = (.error .executorError, st1)
    ∧ (∀ j, (st1.getGroup j).map groupTokens = (st.getGroup j).map groupTokens)
    ∧ (st1.output_queue = st.output_queue
         ∨ st1.output_queue = st.output_queue.drop 1)
    ∧ (st1.cached_scheduler_outputs.seq_group_metadata_list
         = st.cached_scheduler_outputs.seq_group_metadata_list
       ∨ st1.cached_scheduler_outputs.seq_group_metadata_list
         = some sched.seq_group_metadata_list) := by
  obtain ⟨f1, f2, f3⟩ := schedulePhase_frame sched hasRem st mdl so allow ca st1 hsched
  refine ⟨?_, f1, f2, f3⟩
  unfold step
  rw [if_neg hpp]
  simp only [hrem]
  simp only [hsched]
  simp only [hassert, Bool.false_eq_true, if_false]
  unfold executePhase
  simp only [hne, Bool.not_false, if_true]

/-- Witness for C2: a one-group decision with a failing executor at a
concrete empty-heap engine. -/
theorem step_executor_error_frame_witness :
    (¬ ({ groups := [], schedulers := [[]] } : EngineState).pipeline_parallel_size > 1
     ∧ has_remaining_steps
         ({ groups := [], schedulers := [[]] } : EngineState).is_multi_step
         ({ groups := [], schedulers := [[]] } : EngineState).cached_scheduler_outputs.seq_group_metadata_list
         = .ok false
     ∧ schedulePhase
         { seq_group_metadata_list := [],
           scheduler_outputs := { scheduled_seq_groups := [{ group_idx := 0 }] },
           allow_async_output_proc := false } false
         { groups := [], schedulers := [[]] }
         = .ok ([], { scheduled_seq_groups := [{ group_idx := 0 }] }, false, false,
                { groups := [], schedulers := [[]] })
     ∧ (({ groups := [], schedulers := [[]] } : EngineState).is_multi_step && false) = false
     ∧ ({ scheduled_seq_groups := [{ group_idx := 0 }] } : SchedulerOutputs).is_empty = false)
    ∧ (step { seq_group_metadata_list := [],
              scheduler_outputs := { scheduled_seq_groups := [{ group_idx := 0 }] },
              allow_async_output_proc := false } (.error ())
         { groups := [], schedulers := [[]] }
         = (.error .executorError, { groups := [], schedulers := [[]] })
       ∧ (∀ j, ((({ groups := [], schedulers := [[]] } : EngineState)).getGroup j).map groupTokens
            = ((({ groups := [], schedulers := [[]] } : EngineState)).getGroup j).map groupTokens)
       ∧ ((({ groups := [], schedulers := [[]] } : EngineState)).output_queue
            = (({ groups := [], schedulers := [[]] } : EngineState)).output_queue
          ∨ (({ groups := [], schedulers := [[]] } : EngineState)).output_queue
            = (({ groups := [], schedulers := [[]] } : EngineState)).output_queue.drop 1)
       ∧ ((({ groups := [], schedulers := [[]] } : EngineState)).cached_scheduler_outputs.seq_group_metadata_list
            = (({ groups := [], schedulers := [[]] } : EngineState)).cached_scheduler_outputs.seq_group_metadata_list
          ∨ (({ groups := [], schedulers := [[]] } : EngineState)).cached_scheduler_outputs.seq_group_metadata_list
            = some [])) :=
  ⟨⟨by decide, rfl, rfl, rfl, rfl⟩,
   step_executor_error_frame _ _ _ _ _ _ _ _ (by decide) rfl rfl rfl rfl⟩

theorem processOne_cached (a em : Bool) (outs : List SamplerOutput)
    (acc : EngineState × List Nat) (i : Nat) (m : SequenceGroupMetadata)
    (sg : ScheduledSequenceGroup) :
    (processOne a em outs acc i m sg).1.cached_scheduler_outputs
      = acc.1.cached_scheduler_outputs := by
  obtain ⟨st, fb⟩ := acc
  rcases hG : st.getGroup sg.group_idx with _ | g
  · simp [processOne, hG]
  · by_cases hfin : g.is_finished <;> by_cases ha : a <;> by_cases hem : em <;>
      by_cases hds : m.do_sample <;>
      simp [processOne, hG, hfin, ha, hem, hds, EngineState.setGroup]

theorem runProcessLoop_cached (a em : Bool) (entry : QueueEntry)
    (st : EngineState) :
    (runProcessLoop a em entry st).1.cached_scheduler_outputs
      = st.cached_scheduler_outputs :=
  foldl_pres
    (fun (acc : EngineState × List Nat) =>
      acc.1.cached_scheduler_outputs = st.cached_scheduler_outputs) _
    (fun acc p hp => (processOne_cached a em entry.outputs acc p.1 p.2.1 p.2.2).trans hp)
    _ _ rfl

theorem process_entry_cached (s : EngineState) (a : Bool) (entry : QueueEntry)
    (st' : EngineState) (h : process_entry s a entry = .ok st') :
    st'.cached_scheduler_outputs = s.cached_scheduler_outputs := by
  unfold process_entry at h
  by_cases hlen : entry.metadata.length
      = entry.scheduler_outputs.scheduled_seq_groups.length
  · rw [if_neg (fun hne => hne hlen)] at h
    cases h
    show (runProcessLoop a s.embedding_mode entry s).1.cached_scheduler_outputs
        = s.cached_scheduler_outputs
    exact runProcessLoop_cached a s.embedding_mode entry s
  · rw [if_pos hlen] at h
    exact Except.noConfusion h

theorem process_model_outputs_cached (st : EngineState) (a c : Bool)
    (st' : EngineState) (h : process_model_outputs st a c = .ok st') :
    st'.cached_scheduler_outputs = st.cached_scheduler_outputs := by
  unfold process_model_outputs process_model_outputs_core at h
  set s := if c then { st with request_outputs := [] } else st with hs
  have hcs : s.cached_scheduler_outputs = st.cached_scheduler_outputs := by
    rw [hs]; split <;> rfl
  rcases hqq : s.output_queue with _ | ⟨entry, rest⟩
  · rw [hqq] at h
    have h2 : (Except.ok s : Except String EngineState) = .ok st' := h
    injection h2 with h3
    rw [← h3]
    exact hcs
  · rw [hqq] at h
    have h2 : process_entry { s with output_queue := rest } a entry
        = .ok st' := h
    exact (process_entry_cached _ _ _ _ h2).trans hcs

theorem advance_to_next_step_cached :
    ∀ (outs : List SequenceGroupOutputs) (mdl : List SequenceGroupMetadata)
      (ssg : List ScheduledSequenceGroup) (st st' : EngineState),
      advance_to_next_step outs mdl ssg st = .ok st' →
      st'.cached_scheduler_outputs = st.cached_scheduler_outputs := by
  intro outs
  induction outs with
  | nil =>
    intro mdl ssg st st' h
    simp only [advance_to_next_step, Except.ok.injEq] at h
    rw [← h]
  | cons o outs' ih =>
    intro mdl ssg st st' h
    cases mdl with
    | nil =>
      simp only [advance_to_next_step, Except.ok.injEq] at h
      rw [← h]
    | cons m mdl' =>
      cases ssg with
      | nil =>
        simp only [advance_to_next_step, Except.ok.injEq] at h
        rw [← h]
      | cons sg ssg' =>
        rcases hG : st.getGroup sg.group_idx with _ | g
        · simp only [advance_to_next_step, hG] at h
          exact ih mdl' ssg' st st' h
        · by_cases hfin : g.is_finished
          · simp only [advance_to_next_step, hG, hfin, if_true] at h
            exact ih mdl' ssg' st st' h
          · by_cases hds : m.do_sample
            · rcases hsmp : o.samples with _ | ⟨smp, smps⟩
              · exfalso
                simp only [advance_to_next_step, hG, hfin, hds, hsmp,
                  Bool.false_eq_true, if_false, if_true] at h
                all_goals exact Except.noConfusion h
              · cases smps with
                | nil =>
                  by_cases hone : g.seqs.length = 1
                  · simp only [advance_to_next_step, hG, hfin, hds, hsmp,
                      Bool.false_eq_true, if_false, if_true] at h
                    rw [if_neg (fun hne => hne hone)] at h
                    exact (ih mdl' ssg' _ st' h).trans rfl
                  · exfalso
                    simp only [advance_to_next_step, hG, hfin, hds, hsmp,
                      Bool.false_eq_true, if_false, if_true] at h
                    rw [if_pos hone] at h
                    all_goals exact Except.noConfusion h
                | cons smp2 smps' =>
                  exfalso
                  simp only [advance_to_next_step, hG, hfin, hds, hsmp,
                    Bool.false_eq_true, if_false, if_true] at h
                  all_goals exact Except.noConfusion h
            · simp only [advance_to_next_step, hG, hfin, hds,
                Bool.false_eq_true, if_false] at h
              exact (ih mdl' ssg' _ st' h).trans rfl

theorem drainPhase_cached (st : EngineState) :
    (drainPhase st).2.cached_scheduler_outputs = st.cached_scheduler_outputs := by
  unfold drainPhase
  by_cases hu : st.has_unfinished_requests
  · simp [hu]
  · by_cases hq : st.output_queue.isEmpty
    · simp [hu, hq]
    · by_cases hm : st.is_multi_step
      · simp [hu, hq, hm]
      · rcases hp : process_model_outputs st true false with e | stP
        · simp [hu, hq, hm, hp]
        · have hc := process_model_outputs_cached st true false stP hp
          simp only [hu, hq, hm, hp, Bool.not_false, Bool.not_true,
            Bool.false_eq_true, if_true, if_false]
          split <;> exact hc

theorem postExecProcess_cached (allow : Bool) (output : List SamplerOutput)
    (mdl2 : List SequenceGroupMetadata) (so : SchedulerOutputs)
    (st5 : EngineState) :
    (postExecProcess allow output mdl2 so st5).2.cached_scheduler_outputs
      = st5.cached_scheduler_outputs := by
  unfold postExecProcess
  rcases ha : (if !output.isEmpty && allow then
      if output.length ≠ 1 then
        Except.error (StepErr.assertionError
          "Multi step decoding does not work with async output processing.")
      else match output with
        | o0 :: _ =>
          (advance_to_next_step o0 mdl2 so.scheduled_seq_groups
            st5).mapError StepErr.assertionError
        | [] => Except.ok st5
    else Except.ok st5) with e | st6
  · rfl
  · have h6 : st6.cached_scheduler_outputs = st5.cached_scheduler_outputs := by
      by_cases hcond : (!output.isEmpty && allow) = true
      · rw [if_pos hcond] at ha
        by_cases hlen : output.length = 1
        · rw [if_neg (fun hne => hne hlen)] at ha
          rcases output with _ | ⟨o0, orest⟩
          · injection ha with h'
            rw [← h']
          · have ha2 : Except.mapError StepErr.assertionError
                (advance_to_next_step o0 mdl2 so.scheduled_seq_groups st5)
                = Except.ok st6 := ha
            rcases hadv : advance_to_next_step o0 mdl2 so.scheduled_seq_groups st5
                with e2 | stA
            · rw [hadv] at ha2
              have ha3 : (Except.error (StepErr.assertionError e2)
                  : Except StepErr EngineState) = Except.ok st6 := ha2
              exact Except.noConfusion ha3
            · rw [hadv] at ha2
              have ha3 : (Except.ok stA : Except StepErr EngineState)
                  = Except.ok st6 := ha2
              injection ha3 with h'
              rw [← h']
              exact advance_to_next_step_cached _ _ _ _ _ hadv
        · rw [if_pos hlen] at ha
          exact Except.noConfusion ha
      · rw [if_neg hcond] at ha
        injection ha with h'
        rw [← h']
    show (match (if (!allow) = true then
          (process_model_outputs st6 false true).mapError StepErr.assertionError
        else Except.ok st6) with
      | .error e => ((.error e : Except StepErr (List RequestOutput)), st6)
      | .ok st7 => drainPhase st7).2.cached_scheduler_outputs
        = st5.cached_scheduler_outputs
    rcases hb : (if (!allow) = true then
        (process_model_outputs st6 false true).mapError StepErr.assertionError
      else Except.ok st6) with e2 | st7
    · exact h6
    · have h7 : st7.cached_scheduler_outputs = st6.cached_scheduler_outputs := by
        by_cases hal : (!allow) = true
        · rw [if_pos hal] at hb
          rcases hp : process_model_outputs st6 false true with e3 | stP
          · rw [hp] at hb
            have hb2 : (Except.error (StepErr.assertionError e3)
                : Except StepErr EngineState) = Except.ok st7 := hb
            exact Except.noConfusion hb2
          · rw [hp] at hb
            have hb2 : (Except.ok stP : Except StepErr EngineState)
                = Except.ok st7 := hb
            injection hb2 with h'
            rw [← h']
            exact process_model_outputs_cached _ _ _ _ hp
        · rw [if_neg hal] at hb
          injection hb with h'
          rw [← h']
      show (drainPhase st7).2.cached_scheduler_outputs
          = st5.cached_scheduler_outputs
      rw [drainPhase_cached st7, h7, h6]

/-- C3: in multi-step mode `step()` consults the scheduler iff the cached
batch has no remaining sub-steps: (1) with remaining sub-steps the result is
independent of what the scheduler would return and the decision used is the
cached `seq_group_metadata_list` / `scheduler_outputs`; (2) with none, the
decision is the scheduler's fresh one; (3) after executing, `finish_step`
decrements every group's `remaining_steps`, and the cached scheduler output
state is reset to fresh exactly when the remaining steps reach zero (when
they do not, the cache keeps the batch with the decremented counters). -/
theorem step_multi_step_schedule_cache (sched sched' : SchedResult)
    (execRes : Except Unit (List SamplerOutput)) (st : EngineState)
    (hpp : ¬ st.pipeline_parallel_size > 1)
    (hms : st.is_multi_step = true) :
    (has_remaining_steps st.is_multi_step
        st.cached_scheduler_outputs.seq_group_metadata_list = .ok true →
      step sched execRes st = step sched' execRes st
      ∧ ∀ mdl0 so0,
          st.cached_scheduler_outputs.seq_group_metadata_list = some mdl0 →
          st.cached_scheduler_outputs.scheduler_outputs = some so0 →
          schedulePhase sched true st = .ok (mdl0, so0,
            st.cached_scheduler_outputs.allow_async_output_proc, true, st))
    ∧ (∀ mdl so allow ca st1,
        schedulePhase sched false st = .ok (mdl, so, allow, ca, st1) →
        mdl = sched.seq_group_metadata_list ∧ so = sched.scheduler_outputs
        ∧ allow = sched.allow_async_output_proc)
    ∧ (∀ (mdl : List SequenceGroupMetadata) (so : SchedulerOutputs)
        (allow ca : Bool) (output : List SamplerOutput)
        (st2 : EngineState) (hasRem2 : Bool),
        st2.is_multi_step = true →
        has_remaining_steps st2.is_multi_step
          (some (mdl.map SequenceGroupMetadata.finish_step)) = .ok hasRem2 →
        (∀ k m, mdl.get? k = some m →
            (mdl.map SequenceGroupMetadata.finish_step).get? k
              = some { m with state := ⟨m.state.remaining_steps - 1⟩ })
        ∧ (hasRem2 = false →
            (finishPhase mdl so allow ca output st2).2.cached_scheduler_outputs
              = {})
        ∧ (hasRem2 = true → ca = true →
            (finishPhase mdl so allow ca output st2).2.cached_scheduler_outputs
              = { st2.cached_scheduler_outputs with
                  seq_group_metadata_list :=
                    some (mdl.map SequenceGroupMetadata.finish_step) })) := by
  refine ⟨?_, ?_, ?_⟩
  · intro hrem
    constructor
    · unfold step
      simp only [if_neg hpp]
      simp only [hrem]
      have hsp : schedulePhase sched true st = schedulePhase sched' true st := rfl
      rw [hsp]
    · intro mdl0 so0 hm hs
      unfold schedulePhase
      rw [if_neg (by decide : ¬ (!true) = true), hm, hs]
  · intro mdl so allow ca st1 h
    unfold schedulePhase at h
    rw [if_pos (by decide : (!false) = true)] at h
    rcases hq : (if !sched.allow_async_output_proc && !st.output_queue.isEmpty
        then process_model_outputs st true true else .ok st) with e | stM
    · rw [hq] at h
      exact Except.noConfusion h
    · rw [hq] at h
      have h2 : (Except.ok (schedulePhaseFresh sched stM)
          : Except StepErr (List SequenceGroupMetadata × SchedulerOutputs
              × Bool × Bool × EngineState)) = .ok (mdl, so, allow, ca, st1) := h
      simp only [schedulePhaseFresh, Except.ok.injEq, Prod.mk.injEq] at h2
      obtain ⟨h1', h2', h3', h4', h5'⟩ := h2
      exact ⟨h1'.symm, h2'.symm, h3'.symm⟩
  · intro mdl so allow ca output st2 hasRem2 hms2 hrem2
    refine ⟨fun k m hm => ?_, ?_, ?_⟩
    · rw [List.get?_map, hm]
      rfl
    · intro hR2
      rw [hR2, hms2] at hrem2
      unfold finishPhase
      by_cases hca : ca = true
      · simp only [hms2, hca, Bool.true_and, Bool.and_true, if_true, hrem2,
          Bool.not_false, if_true]
        rw [postExecProcess_cached]
      · simp only [hms2, hca, Bool.true_and, Bool.and_false,
          Bool.false_eq_true, if_false, if_true, hrem2, Bool.not_false]
        rw [postExecProcess_cached]
    · intro hR2 hca
      rw [hR2, hms2] at hrem2
      unfold finishPhase
      simp only [hms2, hca, Bool.true_and, Bool.and_true, if_true, hrem2,
        Bool.not_true, Bool.false_eq_true, if_false]
      rw [drainPhase_cached]

/-- Witness for C3 at the concrete multi-step engine `c3State`. -/
theorem step_multi_step_schedule_cache_witness :
    (¬ c3State.pipeline_parallel_size > 1 ∧ c3State.is_multi_step = true)
    ∧ ((has_remaining_steps c3State.is_multi_step
          c3State.cached_scheduler_outputs.seq_group_metadata_list = .ok true →
        step c3Sched (.ok []) c3State = step c3SchedB (.ok []) c3State
        ∧ ∀ mdl0 so0,
            c3State.cached_scheduler_outputs.seq_group_metadata_list = some mdl0 →
            c3State.cached_scheduler_outputs.scheduler_outputs = some so0 →
            schedulePhase c3Sched true c3State = .ok (mdl0, so0,
              c3State.cached_scheduler_outputs.allow_async_output_proc, true,
              c3State))
      ∧ (∀ mdl so allow ca st1,
          schedulePhase c3Sched false c3State = .ok (mdl, so, allow, ca, st1) →
          mdl = c3Sched.seq_group_metadata_list
          ∧ so = c3Sched.scheduler_outputs
          ∧ allow = c3Sched.allow_async_output_proc)
      ∧ (∀ (mdl : List SequenceGroupMetadata) (so : SchedulerOutputs)
          (allow ca : Bool) (output : List SamplerOutput)
          (st2 : EngineState) (hasRem2 : Bool),
          st2.is_multi_step = true →
          has_remaining_steps st2.is_multi_step
            (some (mdl.map SequenceGroupMetadata.finish_step)) = .ok hasRem2 →
          (∀ k m, mdl.get? k = some m →
              (mdl.map SequenceGroupMetadata.finish_step).get? k
                = some { m with state := ⟨m.state.remaining_steps - 1⟩ })
          ∧ (hasRem2 = false →
              (finishPhase mdl so allow ca output st2).2.cached_scheduler_outputs
                = {})
          ∧ (hasRem2 = true → ca = true →
              (finishPhase mdl so allow ca output st2).2.cached_scheduler_outputs
                = { st2.cached_scheduler_outputs with
                    seq_group_metadata_list :=
                      some (mdl.map SequenceGroupMetadata.finish_step) }))) :=
  ⟨⟨by decide, rfl⟩,
   step_multi_step_schedule_cache c3Sched c3SchedB (.ok []) c3State
     (by decide) rfl⟩

theorem update_num_computed_tokens_shape (c : Nat) (g : SequenceGroup) :
    groupShape (g.update_num_computed_tokens c) = groupShape g := rfl

theorem append_head_shape (tok : Nat) (g : SequenceGroup) :
    groupShape (append_head tok g) = groupShape g := by
  unfold append_head
  rcases hs : g.seqs with _ | ⟨sq, rest⟩
  · rfl
  · simp [groupShape, SequenceGroup.is_finished, hs, Sequence.append_token_id]

theorem append_head_singleton (tok : Nat) (g : SequenceGroup) (sq : Sequence)
    (hsq : g.seqs = [sq]) :
    append_head tok g = { g with seqs := [sq.append_token_id tok] } := by
  unfold append_head
  rw [hsq]

theorem advance_to_next_step_shape :
    ∀ (outs : List SequenceGroupOutputs) (mdl : List SequenceGroupMetadata)
      (ssg : List ScheduledSequenceGroup) (st st' : EngineState),
      advance_to_next_step outs mdl ssg st = .ok st' →
      ∀ j, (st'.getGroup j).map groupShape = (st.getGroup j).map groupShape := by
  intro outs
  induction outs with
  | nil =>
    intro mdl ssg st st' h j
    simp only [advance_to_next_step, Except.ok.injEq] at h
    rw [← h]
  | cons o outs' ih =>
    intro mdl ssg st st' h j
    cases mdl with
    | nil =>
      simp only [advance_to_next_step, Except.ok.injEq] at h
      rw [← h]
    | cons m mdl' =>
      cases ssg with
      | nil =>
        simp only [advance_to_next_step, Except.ok.injEq] at h
        rw [← h]
      | cons sg ssg' =>
        rcases hG : st.getGroup sg.group_idx with _ | g
        · simp only [advance_to_next_step, hG] at h
          exact ih mdl' ssg' st st' h j
        · by_cases hfin : g.is_finished
          · simp only [advance_to_next_step, hG, hfin, if_true] at h
            exact ih mdl' ssg' st st' h j
          · by_cases hds : m.do_sample
            · rcases hsmp : o.samples with _ | ⟨smp, smps⟩
              · exfalso
                simp only [advance_to_next_step, hG, hfin, hds, hsmp,
                  Bool.false_eq_true, if_false, if_true] at h
                all_goals exact Except.noConfusion h
              · cases smps with
                | nil =>
                  by_cases hone : g.seqs.length = 1
                  · simp only [advance_to_next_step, hG, hfin, hds, hsmp,
                      Bool.false_eq_true, if_false, if_true] at h
                    rw [if_neg (fun hne => hne hone)] at h
                    rw [ih mdl' ssg' _ st' h j]
                    rw [setGroup_map_proj groupShape _ _ _
                      (append_head_shape smp.output_token) j]
                    rw [setGroup_map_proj groupShape _ _ _
                      (update_num_computed_tokens_shape m.token_chunk_size) j]
                  · exfalso
                    simp only [advance_to_next_step, hG, hfin, hds, hsmp,
                      Bool.false_eq_true, if_false, if_true] at h
                    rw [if_pos hone] at h
                    all_goals exact Except.noConfusion h
                | cons smp2 smps' =>
                  exfalso
                  simp only [advance_to_next_step, hG, hfin, hds, hsmp,
                    Bool.false_eq_true, if_false, if_true] at h
                  all_goals exact Except.noConfusion h
            · simp only [advance_to_next_step, hG, hfin, hds,
                Bool.false_eq_true, if_false] at h
              rw [ih mdl' ssg' _ st' h j]
              rw [setGroup_map_proj groupShape _ _ _
                (update_num_computed_tokens_shape m.token_chunk_size) j]

/-- Success of `_advance_to_next_step` certifies its assertions: every
scheduled triple whose group is alive and sampling has exactly one sample
and exactly one child sequence. -/
theorem advance_to_next_step_ok_conditions :
    ∀ (outs : List SequenceGroupOutputs) (mdl : List SequenceGroupMetadata)
      (ssg : List ScheduledSequenceGroup) (st st' : EngineState),
      advance_to_next_step outs mdl ssg st = .ok st' →
      ∀ i o m sg g, outs.get? i = some o → mdl.get? i = some m →
        ssg.get? i = some sg → st.getGroup sg.group_idx = some g →
        g.is_finished = false → m.do_sample = true →
        o.samples.length = 1 ∧ g.seqs.length = 1 := by
  intro outs
  induction outs with
  | nil =>
    intro mdl ssg st st' h i o m sg g ho
    exact absurd ho (by simp)
  | cons o0 outs' ih =>
    intro mdl ssg st st' h i o m sg g ho hm hsg hG hfin hds
    cases mdl with
    | nil => exact absurd hm (by simp)
    | cons m0 mdl' =>
      cases ssg with
      | nil => exact absurd hsg (by simp)
      | cons sg0 ssg' =>
        cases i with
        | zero =>
          injection ho with ho; injection hm with hm; injection hsg with hsg
          subst ho; subst hm; subst hsg
          rcases hsmp : o0.samples with _ | ⟨smp, smps⟩
          · exfalso
            simp only [advance_to_next_step, hG, hfin, hds, hsmp,
              Bool.false_eq_true, if_false, if_true] at h
            all_goals exact Except.noConfusion h
          · cases smps with
            | nil =>
              by_cases hone : g.seqs.length = 1
              · exact ⟨rfl, hone⟩
              · exfalso
                simp only [advance_to_next_step, hG, hfin, hds, hsmp,
                  Bool.false_eq_true, if_false, if_true] at h
                rw [if_pos hone] at h
                all_goals exact Except.noConfusion h
            | cons smp2 smps' =>
              exfalso
              simp only [advance_to_next_step, hG, hfin, hds, hsmp,
                Bool.false_eq_true, if_false, if_true] at h
              all_goals exact Except.noConfusion h
        | succ i' =>
          have hstep : ∃ stN, advance_to_next_step outs' mdl' ssg' stN = .ok st'
              ∧ (stN.getGroup sg.group_idx).map groupShape
                  = (st.getGroup sg.group_idx).map groupShape := by
            rcases hG0 : st.getGroup sg0.group_idx with _ | g0
            · simp only [advance_to_next_step, hG0] at h
              exact ⟨st, h, rfl⟩
            · by_cases hfin0 : g0.is_finished
              · simp only [advance_to_next_step, hG0, hfin0, if_true] at h
                exact ⟨st, h, rfl⟩
              · by_cases hds0 : m0.do_sample
                · rcases hsmp0 : o0.samples with _ | ⟨smp, smps⟩
                  · exfalso
                    simp only [advance_to_next_step, hG0, hfin0, hds0, hsmp0,
                      Bool.false_eq_true, if_false, if_true] at h
                    all_goals exact Except.noConfusion h
                  · cases smps with
                    | nil =>
                      by_cases hone : g0.seqs.length = 1
                      · simp only [advance_to_next_step, hG0, hfin0, hds0, hsmp0,
                          Bool.false_eq_true, if_false, if_true] at h
                        rw [if_neg (fun hne => hne hone)] at h
                        refine ⟨_, h, ?_⟩
                        rw [setGroup_map_proj groupShape _ _ _
                          (append_head_shape smp.output_token) sg.group_idx]
                        rw [setGroup_map_proj groupShape _ _ _
                          (update_num_computed_tokens_shape m0.token_chunk_size)
                          sg.group_idx]
                      · exfalso
                        simp only [advance_to_next_step, hG0, hfin0, hds0, hsmp0,
                          Bool.false_eq_true, if_false, if_true] at h
                        rw [if_pos hone] at h
                        all_goals exact Except.noConfusion h
                    | cons smp2 smps' =>
                      exfalso
                      simp only [advance_to_next_step, hG0, hfin0, hds0, hsmp0,
                        Bool.false_eq_true, if_false, if_true] at h
                      all_goals exact Except.noConfusion h
                · simp only [advance_to_next_step, hG0, hfin0, hds0,
                    Bool.false_eq_true, if_false] at h
                  refine ⟨_, h, ?_⟩
                  rw [setGroup_map_proj groupShape _ _ _
                    (update_num_computed_tokens_shape m0.token_chunk_size)
                    sg.group_idx]
          obtain ⟨stN, hN, hshape⟩ := hstep
          rw [hG] at hshape
          rcases hGN : stN.getGroup sg.group_idx with _ | g2
          · rw [hGN] at hshape
            exact absurd hshape (by simp)
          · rw [hGN] at hshape
            have hsh : groupShape g2 = groupShape g := by
              simpa using hshape
            have hfin2 : g2.is_finished = false := by
              have := congrArg Prod.fst hsh
              simpa [groupShape, hfin] using this
            obtain ⟨c1, c2⟩ := ih mdl' ssg' stN st' hN i' o m sg g2
              (by simpa using ho) (by simpa using hm) (by simpa using hsg)
              hGN hfin2 hds
            refine ⟨c1, ?_⟩
            have := congrArg Prod.snd hsh
            simp only [groupShape] at this
            rw [← this]
            exact c2

theorem processOne_flags (a em : Bool) (outs : List SamplerOutput)
    (acc : EngineState × List Nat) (i : Nat) (m : SequenceGroupMetadata)
    (sg : ScheduledSequenceGroup) :
    stFlags (processOne a em outs acc i m sg).1 = stFlags acc.1 := by
  obtain ⟨st, fb⟩ := acc
  rcases hG : st.getGroup sg.group_idx with _ | g
  · simp [processOne, hG]
  · by_cases hfin : g.is_finished <;> by_cases ha : a <;> by_cases hem : em <;>
      by_cases hds : m.do_sample <;>
      simp [processOne, hG, hfin, ha, hem, hds, EngineState.setGroup, stFlags]

theorem runProcessLoop_flags (a em : Bool) (entry : QueueEntry)
    (st : EngineState) :
    stFlags (runProcessLoop a em entry st).1 = stFlags st :=
  foldl_pres
    (fun (acc : EngineState × List Nat) => stFlags acc.1 = stFlags st) _
    (fun acc p hp => (processOne_flags a em entry.outputs acc p.1 p.2.1 p.2.2).trans hp)
    _ _ rfl

theorem process_entry_flags (s : EngineState) (a : Bool) (entry : QueueEntry)
    (st' : EngineState) (h : process_entry s a entry = .ok st') :
    stFlags st' = stFlags s := by
  unfold process_entry at h
  by_cases hlen : entry.metadata.length
      = entry.scheduler_outputs.scheduled_seq_groups.length
  · rw [if_neg (fun hne => hne hlen)] at h
    cases h
    show stFlags (finalizeOutputs entry (runProcessLoop a s.embedding_mode entry s))
        = stFlags s
    have h1 : stFlags (finalizeOutputs entry
        (runProcessLoop a s.embedding_mode entry s))
        = stFlags (runProcessLoop a s.embedding_mode entry s).1 := rfl
    rw [h1]
    exact runProcessLoop_flags a s.embedding_mode entry s
  · rw [if_pos hlen] at h
    exact Except.noConfusion h

theorem process_model_outputs_flags (st : EngineState) (a c : Bool)
    (st' : EngineState) (h : process_model_outputs st a c = .ok st') :
    stFlags st' = stFlags st := by
  unfold process_model_outputs process_model_outputs_core at h
  set s := if c then { st with request_outputs := [] } else st with hs
  have hcs : stFlags s = stFlags st := by
    rw [hs]; split <;> rfl
  rcases hqq : s.output_queue with _ | ⟨entry, rest⟩
  · rw [hqq] at h
    have h2 : (Except.ok s : Except String EngineState) = .ok st' := h
    injection h2 with h3
    rw [← h3]
    exact hcs
  · rw [hqq] at h
    have h2 : process_entry { s with output_queue := rest } a entry
        = .ok st' := h
    exact (process_entry_flags _ _ _ _ h2).trans hcs

theorem schedulePhase_flags (sched : SchedResult) (hasRem : Bool)
    (st : EngineState) (mdl : List SequenceGroupMetadata)
    (so : SchedulerOutputs) (allow ca : Bool) (st1 : EngineState)
    (h : schedulePhase sched hasRem st = .ok (mdl, so, allow, ca, st1)) :
    stFlags st1 = stFlags st := by
  unfold schedulePhase at h
  cases hasRem with
  | false =>
    rw [if_pos (by decide : (!false) = true)] at h
    rcases hq : (if !sched.allow_async_output_proc && !st.output_queue.isEmpty
        then process_model_outputs st true true else .ok st) with e | stM
    · rw [hq] at h
      exact Except.noConfusion h
    · rw [hq] at h
      have h2 : (Except.ok (schedulePhaseFresh sched stM)
          : Except StepErr (List SequenceGroupMetadata × SchedulerOutputs
              × Bool × Bool × EngineState)) = .ok (mdl, so, allow, ca, st1) := h
      simp only [schedulePhaseFresh, Except.ok.injEq, Prod.mk.injEq] at h2
      obtain ⟨h1', h2', h3', h4', h5'⟩ := h2
      have hM : stFlags stM = stFlags st := by
        by_cases hcond : (!sched.allow_async_output_proc
            && !st.output_queue.isEmpty) = true
        · rw [if_pos hcond] at hq
          exact process_model_outputs_flags _ _ _ _ hq
        · rw [if_neg hcond] at hq
          injection hq with h''
          rw [h'']
      rw [← h5']
      split
      · exact hM
      · exact hM
  | true =>
    rw [if_neg (by decide : ¬ (!true) = true)] at h
    rcases hm : st.cached_scheduler_outputs.seq_group_metadata_list with _ | mdl0 <;>
      rcases hs : st.cached_scheduler_outputs.scheduler_outputs with _ | so0 <;>
      rw [hm, hs] at h
    · exact Except.noConfusion h
    · exact Except.noConfusion h
    · exact Except.noConfusion h
    · have h2 : (Except.ok (mdl0, so0,
          st.cached_scheduler_outputs.allow_async_output_proc, true, st)
          : Except StepErr (List SequenceGroupMetadata × SchedulerOutputs
              × Bool × Bool × EngineState)) = .ok (mdl, so, allow, ca, st1) := h
      simp only [Except.ok.injEq, Prod.mk.injEq] at h2
      obtain ⟨h1', h2', h3', h4', h5'⟩ := h2
      rw [← h5']

/-- C4: whenever `step()` completes without an assertion failure while the
decision's `allow_async_output_proc` flag is true, the assertions in
`step()` and `_advance_to_next_step` certify that multi-step mode is off,
the executor returned exactly one `SamplerOutput`, and every scheduled
group that is advanced (alive and sampling) has exactly one child sequence
and exactly one sample in its output. -/
theorem step_async_allowed_assertions (sched : SchedResult)
    (execRes : Except Unit (List SamplerOutput)) (st : EngineState)
    (outs : List RequestOutput) (mdl : List SequenceGroupMetadata)
    (so : SchedulerOutputs) (ca : Bool) (st1 : EngineState) (hasRem : Bool)
    (hrem : has_remaining_steps st.is_multi_step
      st.cached_scheduler_outputs.seq_group_metadata_list = .ok hasRem)
    (hsched : schedulePhase sched hasRem st = .ok (mdl, so, true, ca, st1))
    (hstep : (step sched execRes st).1 = .ok outs) :
    st.is_multi_step = false
    ∧ st1.is_multi_step = false
    ∧ (∀ output, execRes = .ok output → so.is_empty = false → output ≠ [] →
        output.length = 1
        ∧ ∀ o0 i o m sg g, output.get? 0 = some o0 →
            o0.get? i = some o → mdl.get? i = some m →
            so.scheduled_seq_groups.get? i = some sg →
            st1.getGroup sg.group_idx = some g →
            g.is_finished = false → m.do_sample = true →
            o.samples.length = 1 ∧ g.seqs.length = 1) := by
  by_cases hpp : st.pipeline_parallel_size > 1
  · exfalso
    unfold step at hstep
    rw [if_pos hpp] at hstep
    exact Except.noConfusion hstep
  · unfold step at hstep
    rw [if_neg hpp] at hstep
    simp only [hrem] at hstep
    simp only [hsched] at hstep
    by_cases hms1 : st1.is_multi_step = true
    · exfalso
      rw [hms1] at hstep
      simp only [Bool.and_self, if_true] at hstep
      exact Except.noConfusion hstep
    · have hms1' : st1.is_multi_step = false := by
        cases hb : st1.is_multi_step
        · rfl
        · exact absurd hb hms1
      have hflags := schedulePhase_flags sched hasRem st mdl so true ca st1 hsched
      have hmsst : st.is_multi_step = false := by
        have h2 := congrArg (fun p => p.2.1) hflags
        simp only [stFlags] at h2
        rw [← h2, hms1']
      refine ⟨hmsst, hms1', ?_⟩
      intro output hexec hso hne
      rcases output with _ | ⟨o0, rest⟩
      · exact absurd rfl hne
      · rw [hexec] at hstep
        simp only [hms1', Bool.and_true, Bool.false_eq_true, if_false] at hstep
        simp only [executePhase, hso, Bool.not_false, if_true, hms1',
          Bool.false_eq_true, if_false] at hstep
        unfold finishPhase at hstep
        simp only [hms1', Bool.false_eq_true, if_false, Bool.false_and,
          has_remaining_steps, Bool.not_false, if_true] at hstep
        unfold postExecProcess at hstep
        simp only [List.isEmpty_cons, Bool.not_false, Bool.and_true,
          if_true] at hstep
        by_cases hlen : (o0 :: rest).length = 1
        · rw [if_neg (fun hne2 => hne2 hlen)] at hstep
          refine ⟨hlen, ?_⟩
          intro o0' i o m sg g ho0 hoi hmi hsgi hGi hfin hds
          injection ho0 with ho0
          subst ho0
          rcases hadv : advance_to_next_step o0 mdl so.scheduled_seq_groups
              { st1 with
                output_queue := st1.output_queue ++ [⟨o0 :: rest, mdl, so⟩],
                is_multi_step := false } with e | st6
          · exfalso
            rw [hadv] at hstep
            exact Except.noConfusion hstep
          · exact advance_to_next_step_ok_conditions o0 mdl
              so.scheduled_seq_groups _ st6 hadv i o m sg g hoi hmi hsgi hGi
              hfin hds
        · exfalso
          rw [if_pos hlen] at hstep
          exact Except.noConfusion hstep

/-- Witness for C4: a successful async-eligible tick at `c4State`. -/
theorem step_async_allowed_assertions_witness :
    (has_remaining_steps c4State.is_multi_step
        c4State.cached_scheduler_outputs.seq_group_metadata_list = .ok false
     ∧ schedulePhase c4Sched false c4State
         = .ok (c4Sched.seq_group_metadata_list, c4Sched.scheduler_outputs,
                true, false, c4State)
     ∧ (step c4Sched (.ok c4Output) c4State).1 = .ok [])
    ∧ (c4State.is_multi_step = false
       ∧ c4State.is_multi_step = false
       ∧ (∀ output, (Except.ok c4Output : Except Unit (List SamplerOutput))
             = .ok output →
           c4Sched.scheduler_outputs.is_empty = false → output ≠ [] →
           output.length = 1
           ∧ ∀ o0 i o m sg g, output.get? 0 = some o0 →
               o0.get? i = some o →
               c4Sched.seq_group_metadata_list.get? i = some m →
               c4Sched.scheduler_outputs.scheduled_seq_groups.get? i = some sg →
               c4State.getGroup sg.group_idx = some g →
               g.is_finished = false → m.do_sample = true →
               o.samples.length = 1 ∧ g.seqs.length = 1)) :=
  ⟨⟨rfl, rfl, rfl⟩,
   step_async_allowed_assertions c4Sched (.ok c4Output) c4State [] _ _ false
     c4State false rfl rfl rfl⟩

theorem setGroup_getGroup_ne (st : EngineState) (i j : Nat)
    (f : SequenceGroup → SequenceGroup) (h : i ≠ j) :
    (st.setGroup i f).getGroup j = st.getGroup j :=
  modifyIdx_get?_ne _ _ _ _ h

theorem advance_to_next_step_untouched :
    ∀ (outs : List SequenceGroupOutputs) (mdl : List SequenceGroupMetadata)
      (ssg : List ScheduledSequenceGroup) (st st' : EngineState),
      advance_to_next_step outs mdl ssg st = .ok st' →
      ∀ j, (∀ sg ∈ ssg, sg.group_idx ≠ j) →
      st'.getGroup j = st.getGroup j := by
  intro outs
  induction outs with
  | nil =>
    intro mdl ssg st st' h j hj
    simp only [advance_to_next_step, Except.ok.injEq] at h
    rw [← h]
  | cons o outs' ih =>
    intro mdl ssg st st' h j hj
    cases mdl with
    | nil =>
      simp only [advance_to_next_step, Except.ok.injEq] at h
      rw [← h]
    | cons m mdl' =>
      cases ssg with
      | nil =>
        simp only [advance_to_next_step, Except.ok.injEq] at h
        rw [← h]
      | cons sg ssg' =>
        have hsgj : sg.group_idx ≠ j := hj sg (List.mem_cons_self sg ssg')
        have hj' : ∀ sg' ∈ ssg', sg'.group_idx ≠ j :=
          fun sg' hm => hj sg' (List.mem_cons_of_mem sg hm)
        rcases hG : st.getGroup sg.group_idx with _ | g
        · simp only [advance_to_next_step, hG] at h
          exact ih mdl' ssg' st st' h j hj'
        · by_cases hfin : g.is_finished
          · simp only [advance_to_next_step, hG, hfin, if_true] at h
            exact ih mdl' ssg' st st' h j hj'
          · by_cases hds : m.do_sample
            · rcases hsmp : o.samples with _ | ⟨smp, smps⟩
              · exfalso
                simp only [advance_to_next_step, hG, hfin, hds, hsmp,
                  Bool.false_eq_true, if_false, if_true] at h
                all_goals exact Except.noConfusion h
              · cases smps with
                | nil =>
                  by_cases hone : g.seqs.length = 1
                  · simp only [advance_to_next_step, hG, hfin, hds, hsmp,
                      Bool.false_eq_true, if_false, if_true] at h
                    rw [if_neg (fun hne => hne hone)] at h
                    rw [ih mdl' ssg' _ st' h j hj']
                    rw [setGroup_getGroup_ne _ _ _ _ hsgj]
                    rw [setGroup_getGroup_ne _ _ _ _ hsgj]
                  · exfalso
                    simp only [advance_to_next_step, hG, hfin, hds, hsmp,
                      Bool.false_eq_true, if_false, if_true] at h
                    rw [if_pos hone] at h
                    all_goals exact Except.noConfusion h
                | cons smp2 smps' =>
                  exfalso
                  simp only [advance_to_next_step, hG, hfin, hds, hsmp,
                    Bool.false_eq_true, if_false, if_true] at h
                  all_goals exact Except.noConfusion h
            · simp only [advance_to_next_step, hG, hfin, hds,
                Bool.false_eq_true, if_false] at h
              rw [ih mdl' ssg' _ st' h j hj']
              rw [setGroup_getGroup_ne _ _ _ _ hsgj]

theorem advance_to_next_step_effect :
    ∀ (outs : List SequenceGroupOutputs) (mdl : List SequenceGroupMetadata)
      (ssg : List ScheduledSequenceGroup) (st st' : EngineState),
      advance_to_next_step outs mdl ssg st = .ok st' →
      List.Pairwise (fun a b => a.group_idx ≠ b.group_idx) ssg →
      ∀ i o m sg g, outs.get? i = some o → mdl.get? i = some m →
        ssg.get? i = some sg → st.getGroup sg.group_idx = some g →
        (g.is_finished = true → st'.getGroup sg.group_idx = some g)
        ∧ (g.is_finished = false → m.do_sample = true →
            ∀ sq, g.seqs = [sq] →
            ∃ smp, o.samples = [smp]
              ∧ st'.getGroup sg.group_idx = some
                  { g with
                    seqs := [sq.append_token_id smp.output_token],
                    num_computed_tokens :=
                      g.num_computed_tokens + m.token_chunk_size }) := by
  intro outs
  induction outs with
  | nil =>
    intro mdl ssg st st' h hdist i o m sg g ho
    exact absurd ho (by simp)
  | cons o0 outs' ih =>
    intro mdl ssg st st' h hdist i o m sg g ho hm hsg hG
    cases mdl with
    | nil => exact absurd hm (by simp)
    | cons m0 mdl' =>
      cases ssg with
      | nil => exact absurd hsg (by simp)
      | cons sg0 ssg' =>
        obtain ⟨hhead, htail⟩ := List.pairwise_cons.mp hdist
        cases i with
        | zero =>
          injection ho with ho; injection hm with hm; injection hsg with hsg
          subst ho; subst hm; subst hsg
          have huntail : ∀ sg' ∈ ssg', sg'.group_idx ≠ sg0.group_idx :=
            fun sg' hmem => (hhead sg' hmem).symm
          by_cases hfin : g.is_finished
          · refine ⟨fun _ => ?_, fun hfalse => absurd hfin (by rw [hfalse]; simp)⟩
            simp only [advance_to_next_step, hG, hfin, if_true] at h
            rw [advance_to_next_step_untouched outs' mdl' ssg' st st' h
              sg0.group_idx huntail]
            exact hG
          · refine ⟨fun htrue => absurd htrue hfin, ?_⟩
            intro hfin2 hds sq hsq
            rcases hsmp : o0.samples with _ | ⟨smp, smps⟩
            · exfalso
              simp only [advance_to_next_step, hG, hfin,
                Bool.false_eq_true, if_false] at h
              rw [if_pos hds, hsmp] at h
              exact Except.noConfusion h
            · cases smps with
              | nil =>
                have hone : g.seqs.length = 1 := by rw [hsq]; rfl
                simp only [advance_to_next_step, hG, hfin,
                  Bool.false_eq_true, if_false] at h
                rw [if_pos hds, hsmp] at h
                have h2 : (if g.seqs.length ≠ 1 then
                      (Except.error "assert len(seq_group.seqs) == 1"
                        : Except String EngineState)
                    else advance_to_next_step outs' mdl' ssg'
                      ((st.setGroup sg0.group_idx
                          (fun g => g.update_num_computed_tokens
                            m0.token_chunk_size)).setGroup sg0.group_idx
                        (append_head smp.output_token))) = .ok st' := h
                rw [if_neg (fun hne => hne hone)] at h2
                refine ⟨smp, rfl, ?_⟩
                rw [advance_to_next_step_untouched outs' mdl' ssg' _ st' h2
                  sg0.group_idx huntail]
                show ((st.setGroup sg0.group_idx
                    (fun g => g.update_num_computed_tokens
                      m0.token_chunk_size)).setGroup sg0.group_idx
                    (append_head smp.output_token)).getGroup sg0.group_idx = _
                rw [show ∀ (stX : EngineState) (i : Nat) f,
                    (EngineState.setGroup stX i f).getGroup i
                      = (stX.getGroup i).map f from
                  fun stX i f => modifyIdx_get?_eq _ _ _]
                rw [show ∀ (stX : EngineState) (i : Nat) f,
                    (EngineState.setGroup stX i f).getGroup i
                      = (stX.getGroup i).map f from
                  fun stX i f => modifyIdx_get?_eq _ _ _]
                rw [hG]
                refine congrArg some ?_
                have hseqs1 : (g.update_num_computed_tokens
                    m0.token_chunk_size).seqs = [sq] := hsq
                rw [append_head_singleton smp.output_token _ sq hseqs1]
                rfl
              | cons smp2 smps' =>
                exfalso
                simp only [advance_to_next_step, hG, hfin,
                  Bool.false_eq_true, if_false] at h
                rw [if_pos hds, hsmp] at h
                exact Except.noConfusion h
        | succ i' =>
          have hmem : sg ∈ ssg' := List.get?_mem (by simpa using hsg)
          have hne0 : sg0.group_idx ≠ sg.group_idx := hhead sg hmem
          have hkey : ∃ stN, advance_to_next_step outs' mdl' ssg' stN = .ok st'
              ∧ stN.getGroup sg.group_idx = st.getGroup sg.group_idx := by
            rcases hG0 : st.getGroup sg0.group_idx with _ | g0
            · simp only [advance_to_next_step, hG0] at h
              exact ⟨st, h, rfl⟩
            · by_cases hfin0 : g0.is_finished
              · simp only [advance_to_next_step, hG0, hfin0, if_true] at h
                exact ⟨st, h, rfl⟩
              · by_cases hds0 : m0.do_sample
                · rcases hsmp0 : o0.samples with _ | ⟨smp, smps⟩
                  · exfalso
                    simp only [advance_to_next_step, hG0, hfin0, hds0, hsmp0,
                      Bool.false_eq_true, if_false, if_true] at h
                    all_goals exact Except.noConfusion h
                  · cases smps with
                    | nil =>
                      by_cases hone : g0.seqs.length = 1
                      · simp only [advance_to_next_step, hG0, hfin0, hds0,
                          hsmp0, Bool.false_eq_true, if_false, if_true] at h
                        rw [if_neg (fun hne => hne hone)] at h
                        refine ⟨_, h, ?_⟩
                        rw [setGroup_getGroup_ne _ _ _ _ hne0]
                        rw [setGroup_getGroup_ne _ _ _ _ hne0]
                      · exfalso
                        simp only [advance_to_next_step, hG0, hfin0, hds0,
                          hsmp0, Bool.false_eq_true, if_false, if_true] at h
                        rw [if_pos hone] at h
                        all_goals exact Except.noConfusion h
                    | cons smp2 smps' =>
                      exfalso
                      simp only [advance_to_next_step, hG0, hfin0, hds0, hsmp0,
                        Bool.false_eq_true, if_false, if_true] at h
                      all_goals exact Except.noConfusion h
                · simp only [advance_to_next_step, hG0, hfin0, hds0,
                    Bool.false_eq_true, if_false] at h
                  refine ⟨_, h, ?_⟩
                  rw [setGroup_getGroup_ne _ _ _ _ hne0]
          obtain ⟨stN, hN, hNG⟩ := hkey
          have hGN : stN.getGroup sg.group_idx = some g := by rw [hNG, hG]
          exact ih mdl' ssg' stN st' hN htail i' o m sg g
            (by simpa using ho) (by simpa using hm) (by simpa using hsg) hGN

/-- C5: with async output processing, each sampled token is appended
exactly once.  `_advance_to_next_step` appends the single sampled token and
adds the token chunk to `num_computed_tokens` for every non-finished
scheduled (sampling, single-child) group and leaves finished groups
untouched; the later asynchronous `_process_model_outputs` call
(`is_async = true`) preserves every group's token streams and
`num_computed_tokens` — it neither appends nor updates them again. -/
theorem advance_appends_once_async_process_appends_none
    (outs : List SequenceGroupOutputs) (mdl : List SequenceGroupMetadata)
    (ssg : List ScheduledSequenceGroup) (st st' : EngineState)
    (hadv : advance_to_next_step outs mdl ssg st = .ok st')
    (hdist : List.Pairwise (fun a b => a.group_idx ≠ b.group_idx) ssg) :
    (∀ i o m sg g, outs.get? i = some o → mdl.get? i = some m →
        ssg.get? i = some sg → st.getGroup sg.group_idx = some g →
        (g.is_finished = true → st'.getGroup sg.group_idx = some g)
        ∧ (g.is_finished = false → m.do_sample = true →
            ∀ sq, g.seqs = [sq] →
            ∃ smp, o.samples = [smp]
              ∧ st'.getGroup sg.group_idx = some
                  { g with
                    seqs := [sq.append_token_id smp.output_token],
                    num_computed_tokens :=
                      g.num_computed_tokens + m.token_chunk_size }))
    ∧ (∀ c st2, process_model_outputs st' true c = .ok st2 →
        ∀ j, (st2.getGroup j).map groupProgress
            = (st'.getGroup j).map groupProgress) :=
  ⟨advance_to_next_step_effect outs mdl ssg st st' hadv hdist,
   fun c st2 hp => (process_model_outputs_async_frame st' c st2 hp).2.2⟩

/-- Witness for C5: one scheduled single-child group, one sampled token. -/
theorem advance_appends_once_async_process_appends_none_witness :
    (advance_to_next_step [⟨[⟨7⟩]⟩] [{ request_id := "r" }] [{ group_idx := 0 }]
        { groups := [{ request_id := "r",
                       seqs := [{ seq_id := 0, prompt_token_ids := [1] }],
                       sampling_params := {} }],
          schedulers := [[0]] }
      = .ok { groups := [{ request_id := "r",
                           seqs := [{ seq_id := 0, prompt_token_ids := [1],
                                      output_token_ids := [7] }],
                           sampling_params := {},
                           num_computed_tokens := 1 }],
              schedulers := [[0]] }
     ∧ List.Pairwise
         (fun (a b : ScheduledSequenceGroup) => a.group_idx ≠ b.group_idx)
         [{ group_idx := 0 }])
    ∧ ((∀ i o m sg g,
          ([⟨[⟨7⟩]⟩] : List SequenceGroupOutputs).get? i = some o →
          ([{ request_id := "r" }] : List SequenceGroupMetadata).get? i = some m →
          ([{ group_idx := 0 }] : List ScheduledSequenceGroup).get? i = some sg →
          ({ groups := [{ request_id := "r",
                          seqs := [{ seq_id := 0, prompt_token_ids := [1] }],
                          sampling_params := {} }],
             schedulers := [[0]] } : EngineState).getGroup sg.group_idx = some g →
          (g.is_finished = true →
            ({ groups := [{ request_id := "r",
                            seqs := [{ seq_id := 0, prompt_token_ids := [1],
                                       output_token_ids := [7] }],
                            sampling_params := {},
                            num_computed_tokens := 1 }],
               schedulers := [[0]] } : EngineState).getGroup sg.group_idx = some g)
          ∧ (g.is_finished = false → m.do_sample = true →
              ∀ sq, g.seqs = [sq] →
              ∃ smp, o.samples = [smp]
                ∧ ({ groups := [{ request_id := "r",
                                  seqs := [{ seq_id := 0, prompt_token_ids := [1],
                                             output_token_ids := [7] }],
                                  sampling_params := {},
                                  num_computed_tokens := 1 }],
                     schedulers := [[0]] } : EngineState).getGroup sg.group_idx
                  = some
                    { g with
                      seqs := [sq.append_token_id smp.output_token],
                      num_computed_tokens :=
                        g.num_computed_tokens + m.token_chunk_size }))
       ∧ (∀ c st2, process_model_outputs
            { groups := [{ request_id := "r",
                           seqs := [{ seq_id := 0, prompt_token_ids := [1],
                                      output_token_ids := [7] }],
                           sampling_params := {},
                           num_computed_tokens := 1 }],
              schedulers := [[0]] } true c = .ok st2 →
          ∀ j, (st2.getGroup j).map groupProgress
              = (({ groups := [{ request_id := "r",
                                 seqs := [{ seq_id := 0, prompt_token_ids := [1],
                                            output_token_ids := [7] }],
                                 sampling_params := {},
                                 num_computed_tokens := 1 }],
                    schedulers := [[0]] } : EngineState).getGroup j).map
                  groupProgress)) :=
  ⟨⟨rfl, by simp⟩,
   advance_appends_once_async_process_appends_none _ _ _ _ _ rfl (by simp)⟩

theorem processOne_request_outputs (a em : Bool) (outs : List SamplerOutput)
    (acc : EngineState × List Nat) (i : Nat) (m : SequenceGroupMetadata)
    (sg : ScheduledSequenceGroup) :
    (processOne a em outs acc i m sg).1.request_outputs
      = acc.1.request_outputs := by
  obtain ⟨st, fb⟩ := acc
  rcases hG : st.getGroup sg.group_idx with _ | g
  · simp [processOne, hG]
  · by_cases hfin : g.is_finished <;> by_cases ha : a <;> by_cases hem : em <;>
      by_cases hds : m.do_sample <;>
      simp [processOne, hG, hfin, ha, hem, hds, EngineState.setGroup]

theorem runProcessLoop_request_outputs (a em : Bool) (entry : QueueEntry)
    (st : EngineState) :
    (runProcessLoop a em entry st).1.request_outputs = st.request_outputs :=
  foldl_pres
    (fun (acc : EngineState × List Nat) =>
      acc.1.request_outputs = st.request_outputs) _
    (fun acc p hp =>
      (processOne_request_outputs a em entry.outputs acc p.1 p.2.1 p.2.2).trans hp)
    _ _ rfl

/-- The `request_outputs` filter of the output-creation loop, characterized:
with `step_return_finished_only` set, a `RequestOutput` for scheduled entry
`i` is emitted iff `i` is not in `finished_before` and the group is finished
at emission time. -/
theorem createOutputsLoop_mem_iff (stX : EngineState)
    (hsrfo : stX.step_return_finished_only = true)
    (ssg : List ScheduledSequenceGroup) (fb : List Nat) (r : RequestOutput) :
    r ∈ createOutputsLoop stX ssg fb
      ↔ ∃ i sg g, ssg.get? i = some sg ∧ fb.contains i = false
          ∧ stX.getGroup sg.group_idx = some g ∧ g.is_finished = true
          ∧ r = RequestOutput.create g := by
  unfold createOutputsLoop
  rw [List.mem_filterMap]
  constructor
  · rintro ⟨p, hmem, hf⟩
    have hget : ssg.get? p.1 = some p.2 := by
      simpa using List.mem_enum_iff_get?.mp hmem
    by_cases hfb : fb.contains p.1 = true
    · rw [if_pos hfb] at hf
      exact absurd hf (by simp)
    · rw [if_neg hfb] at hf
      have hfb' : fb.contains p.1 = false := by
        cases hb : fb.contains p.1
        · rfl
        · exact absurd hb hfb
      rcases hG : stX.getGroup p.2.group_idx with _ | g
      · rw [hG] at hf
        exact absurd hf (by simp)
      · rw [hG] at hf
        have hf2 : (if (if stX.step_return_finished_only = true
              then g.is_finished else true) = true then
            some (RequestOutput.create g) else none) = some r := hf
        rw [if_pos hsrfo] at hf2
        by_cases hfin : g.is_finished = true
        · rw [if_pos hfin] at hf2
          injection hf2 with hf2
          exact ⟨p.1, p.2, g, hget, hfb', hG, hfin, hf2.symm⟩
        · rw [if_neg hfin] at hf2
          exact absurd hf2 (by simp)
  · rintro ⟨i, sg, g, hget, hfb, hG, hfin, hr⟩
    refine ⟨(i, sg), ?_, ?_⟩
    · exact List.mem_enum_iff_get?.mpr (by simpa using hget)
    · have hnfb : ¬ (fb.contains i = true) := by
        rw [hfb]
        decide
      show (if fb.contains i = true then none
          else match stX.getGroup sg.group_idx with
          | none => none
          | some g =>
              if (if stX.step_return_finished_only = true then g.is_finished
                  else true) = true then
                some (RequestOutput.create g)
              else none) = some r
      rw [if_neg hnfb, hG]
      show (if (if stX.step_return_finished_only = true then g.is_finished
          else true) = true then some (RequestOutput.create g) else none)
          = some r
      rw [if_pos hsrfo, if_pos hfin, hr]

/-- The exact result of a `_process_model_outputs` core call that pops
`entry`. -/
theorem process_model_outputs_core_entry (s : EngineState) (is_async : Bool)
    (entry : QueueEntry) (rest : List QueueEntry) (st' : EngineState)
    (hq : s.output_queue = entry :: rest)
    (hlen : entry.metadata.length
      = entry.scheduler_outputs.scheduled_seq_groups.length)
    (h : process_model_outputs_core s is_async = .ok st') :
    st' = finalizeOutputs entry (runProcessLoop is_async
      ({ s with output_queue := rest } : EngineState).embedding_mode entry
      { s with output_queue := rest }) := by
  unfold process_model_outputs_core at h
  rw [hq] at h
  have h2 : process_entry { s with output_queue := rest } is_async entry
      = .ok st' := h
  unfold process_entry at h2
  rw [if_neg (fun hne => hne hlen)] at h2
  injection h2 with h3
  exact h3.symm

/-- C6 counterexample: with `step_return_finished_only = true`, a scheduled
group that was already finished when output processing began is skipped
(`finished_before`), so the tick's output list contains no `RequestOutput`
for it even though the group is finished at the end of the tick — contrary
to the claimed "if and only if finished at the end of the tick". -/
theorem step_return_finished_only_skips_finished_before :
    process_model_outputs
      { groups := [{ request_id := "r",
                     seqs := [{ seq_id := 0, prompt_token_ids := [1],
                                status := .finished_stopped }],
                     sampling_params := {} }],
        schedulers := [[0]],
        output_queue := [{ outputs := [[⟨[⟨5⟩]⟩]],
                           metadata := [{ request_id := "r" }],
                           scheduler_outputs :=
                             { scheduled_seq_groups := [{ group_idx := 0 }] } }],
        step_return_finished_only := true } false true
      = .ok { groups := [{ request_id := "r",
                           seqs := [{ seq_id := 0, prompt_token_ids := [1],
                                      status := .finished_stopped }],
                           sampling_params := {} }],
              schedulers := [[]],
              output_queue := [],
              step_return_finished_only := true }
    ∧ ({ request_id := "r",
         seqs := [{ seq_id := 0, prompt_token_ids := [1],
                    status := .finished_stopped }],
         sampling_params := {} } : SequenceGroup).is_finished = true
    ∧ ({ groups := [{ request_id := "r",
                      seqs := [{ seq_id := 0, prompt_token_ids := [1],
                                 status := .finished_stopped }],
                      sampling_params := {} }],
         schedulers := [[]],
         output_queue := [],
         step_return_finished_only := true } : EngineState).request_outputs
      = [] :=
  ⟨rfl, rfl, rfl⟩

/-- C6 (amended): with `step_return_finished_only = true` and the tick's
output buffer starting empty, the built output list is exactly the filtered
per-scheduled-group outputs followed by the ignored groups' outputs; a
`RequestOutput` for scheduled entry `i` is present iff `i` was **not**
already finished before processing (not in `finished_before`) and the group
is finished at the end of the tick; ignored groups are always included. -/
theorem step_return_finished_only_characterization (s : EngineState)
    (is_async : Bool) (entry : QueueEntry) (rest : List QueueEntry)
    (st' stL : EngineState) (fb : List Nat)
    (hsrfo : s.step_return_finished_only = true)
    (hro : s.request_outputs = [])
    (hq : s.output_queue = entry :: rest)
    (hlen : entry.metadata.length
      = entry.scheduler_outputs.scheduled_seq_groups.length)
    (hok : process_model_outputs_core s is_async = .ok st')
    (hL : runProcessLoop is_async
      ({ s with output_queue := rest } : EngineState).embedding_mode entry
      { s with output_queue := rest } = (stL, fb)) :
    st'.request_outputs
      = createOutputsLoop (free_finished_seq_groups stL)
          entry.scheduler_outputs.scheduled_seq_groups fb
        ++ entry.scheduler_outputs.ignored_seq_groups.filterMap
            (fun i => ((free_finished_seq_groups stL).getGroup i).map
              RequestOutput.create)
    ∧ (∀ r, r ∈ createOutputsLoop (free_finished_seq_groups stL)
          entry.scheduler_outputs.scheduled_seq_groups fb
        ↔ ∃ i sg g,
            entry.scheduler_outputs.scheduled_seq_groups.get? i = some sg
            ∧ fb.contains i = false
            ∧ (free_finished_seq_groups stL).getGroup sg.group_idx = some g
            ∧ g.is_finished = true
            ∧ r = RequestOutput.create g)
    ∧ (∀ r, r ∈ entry.scheduler_outputs.ignored_seq_groups.filterMap
          (fun i => ((free_finished_seq_groups stL).getGroup i).map
            RequestOutput.create) → r ∈ st'.request_outputs) := by
  have hst' := process_model_outputs_core_entry s is_async entry rest st'
    hq hlen hok
  rw [hL] at hst'
  have hreq : (free_finished_seq_groups stL).request_outputs = [] := by
    have h1 : (free_finished_seq_groups stL).request_outputs
        = stL.request_outputs := rfl
    have h2 : stL.request_outputs
        = ({ s with output_queue := rest } : EngineState).request_outputs := by
      have := runProcessLoop_request_outputs is_async
        ({ s with output_queue := rest } : EngineState).embedding_mode entry
        { s with output_queue := rest }
      rw [hL] at this
      exact this
    rw [h1, h2]
    exact hro
  have hsrfoF : (free_finished_seq_groups stL).step_return_finished_only
      = true := by
    have h1 : (free_finished_seq_groups stL).step_return_finished_only
        = stL.step_return_finished_only := rfl
    have h2 := runProcessLoop_flags is_async
      ({ s with output_queue := rest } : EngineState).embedding_mode entry
      { s with output_queue := rest }
    rw [hL] at h2
    have h3 := congrArg (fun p => p.2.2.1) h2
    simp only [stFlags] at h3
    rw [h1, h3]
    exact hsrfo
  have hout : st'.request_outputs
      = createOutputsLoop (free_finished_seq_groups stL)
          entry.scheduler_outputs.scheduled_seq_groups fb
        ++ entry.scheduler_outputs.ignored_seq_groups.filterMap
            (fun i => ((free_finished_seq_groups stL).getGroup i).map
              RequestOutput.create) := by
    rw [hst']
    show (free_finished_seq_groups stL).request_outputs
        ++ createOutputsLoop (free_finished_seq_groups stL)
             entry.scheduler_outputs.scheduled_seq_groups fb
        ++ entry.scheduler_outputs.ignored_seq_groups.filterMap
            (fun i => ((free_finished_seq_groups stL).getGroup i).map
              RequestOutput.create) = _
    rw [hreq]
    simp
  refine ⟨hout, ?_, ?_⟩
  · intro r
    exact createOutputsLoop_mem_iff (free_finished_seq_groups stL) hsrfoF
      entry.scheduler_outputs.scheduled_seq_groups fb r
  · intro r hr
    rw [hout]
    exact List.mem_append_right _ hr

/-- Witness for the amended C6 at `c6State`. -/
theorem step_return_finished_only_characterization_witness :
    (c6State.step_return_finished_only = true
     ∧ c6State.request_outputs = []
     ∧ c6State.output_queue = c6Entry :: []
     ∧ c6Entry.metadata.length
         = c6Entry.scheduler_outputs.scheduled_seq_groups.length
     ∧ process_model_outputs_core c6State false = .ok c6Result
     ∧ runProcessLoop false
         ({ c6State with output_queue := [] } : EngineState).embedding_mode
         c6Entry { c6State with output_queue := [] } = (c6Popped, [0]))
    ∧ (c6Result.request_outputs
        = createOutputsLoop (free_finished_seq_groups c6Popped)
            c6Entry.scheduler_outputs.scheduled_seq_groups [0]
          ++ c6Entry.scheduler_outputs.ignored_seq_groups.filterMap
              (fun i => ((free_finished_seq_groups c6Popped).getGroup i).map
                RequestOutput.create)
       ∧ (∀ r, r ∈ createOutputsLoop (free_finished_seq_groups c6Popped)
             c6Entry.scheduler_outputs.scheduled_seq_groups [0]
           ↔ ∃ i sg g,
               c6Entry.scheduler_outputs.scheduled_seq_groups.get? i = some sg
               ∧ ([0] : List Nat).contains i = false
               ∧ (free_finished_seq_groups c6Popped).getGroup sg.group_idx
                   = some g
               ∧ g.is_finished = true
               ∧ r = RequestOutput.create g)
       ∧ (∀ r, r ∈ c6Entry.scheduler_outputs.ignored_seq_groups.filterMap
             (fun i => ((free_finished_seq_groups c6Popped).getGroup i).map
               RequestOutput.create) → r ∈ c6Result.request_outputs)) :=
  ⟨⟨rfl, rfl, rfl, rfl, rfl, rfl⟩,
   step_return_finished_only_characterization c6State false c6Entry []
     c6Result c6Popped [0] rfl rfl rfl rfl rfl rfl⟩

/-- C8 (counterexample): an engine with no unfinished requests and an
empty output queue, but a stale `request_outputs` buffer from the previous
tick.  When the (spec-modelled) scheduler marks the empty decision
async-eligible, `step` skips the synchronous `_process_model_outputs` call
(which clears the buffer, llm_engine.py:1510-1511) and the drain runs with
`clear_outputs=False` (line 1525), so `step` returns the stale, non-empty
list instead of the empty list the spec promises. -/
theorem step_empty_engine_returns_stale_outputs :
    c8Stale.has_unfinished_requests = false
    ∧ c8Stale.output_queue = []
    ∧ (step c8SchedEmpty (Except.ok []) c8Stale).1
        = Except.ok [{ request_id := "old", finished := true }] :=
  ⟨rfl, rfl, rfl⟩

theorem filter_map_self_of_empty (l : List (List Nat))
    (h : ∀ q ∈ l, q = []) :
    ∀ keep : Nat → Bool, l.map (fun q => q.filter keep) = l := by
  intro keep
  induction l with
  | nil => rfl
  | cons q rest ih =>
    have hq : q = [] := h q (List.mem_cons_self q rest)
    subst hq
    simp only [List.map_cons, List.filter_nil, List.cons.injEq, true_and]
    exact ih (fun q hq => h q (List.mem_cons_of_mem _ hq))

theorem any_unfinished_false (l : List (List Nat))
    (h : ∀ q ∈ l, q = []) :
    ∀ st : EngineState, l.any (fun q => st.schedHasUnfinished q) = false := by
  intro st
  rw [List.any_eq_false]
  intro q hq
  rw [h q hq]
  simp [EngineState.schedHasUnfinished]

/-- C8 (amended): on an idle engine — no queued async work, an empty
`request_outputs` buffer, an empty multi-step cache and empty scheduler
queues — a `step` whose (spec-modelled) scheduler answer is the empty
decision returns the empty list and leaves the engine state unchanged. -/
theorem step_empty_engine_noop (sched : SchedResult) (st : EngineState)
    (hpp : st.pipeline_parallel_size = 1)
    (hso : sched.scheduler_outputs = { scheduled_seq_groups := [] })
    (hmdl : sched.seq_group_metadata_list = [])
    (hma : st.is_multi_step = true → sched.allow_async_output_proc = false)
    (hro : st.request_outputs = [])
    (hq : st.output_queue = [])
    (hcache : st.cached_scheduler_outputs = {})
    (hsch : ∀ q ∈ st.schedulers, q = []) :
    step sched (Except.ok []) st = (Except.ok [], st) := by
  obtain ⟨mdl, so, allow⟩ := sched
  cases st with
  | mk groups schedulers cache oq ro pp ims srfo em =>
    simp only at hpp hro hq hcache hsch hma hso hmdl
    subst hpp hro hq hcache hso hmdl
    cases ims with
    | true =>
      have hal : allow = false := hma rfl
      subst hal
      simp [step, has_remaining_steps, schedulePhase, schedulePhaseFresh,
        executePhase, finishPhase, postExecProcess, drainPhase,
        process_model_outputs, process_model_outputs_core, process_entry,
        runProcessLoop, finalizeOutputs, free_finished_seq_groups,
        createOutputsLoop, SchedulerOutputs.is_empty, Except.mapError,
        EngineState.has_unfinished_requests,
        any_unfinished_false schedulers hsch,
        filter_map_self_of_empty schedulers hsch]
    | false =>
      cases allow with
      | true =>
        simp [step, has_remaining_steps, schedulePhase, schedulePhaseFresh,
        executePhase, finishPhase, postExecProcess, drainPhase,
        process_model_outputs, process_model_outputs_core, process_entry,
        runProcessLoop, finalizeOutputs, free_finished_seq_groups,
        createOutputsLoop, SchedulerOutputs.is_empty, Except.mapError,
        EngineState.has_unfinished_requests,
        any_unfinished_false schedulers hsch,
        filter_map_self_of_empty schedulers hsch]
      | false =>
        simp [step, has_remaining_steps, schedulePhase, schedulePhaseFresh,
        executePhase, finishPhase, postExecProcess, drainPhase,
        process_model_outputs, process_model_outputs_core, process_entry,
        runProcessLoop, finalizeOutputs, free_finished_seq_groups,
        createOutputsLoop, SchedulerOutputs.is_empty, Except.mapError,
        EngineState.has_unfinished_requests,
        any_unfinished_false schedulers hsch,
        filter_map_self_of_empty schedulers hsch]

/-- Witness for the amended C8 at the idle engine `c8Empty`. -/
theorem step_empty_engine_noop_witness :
    (c8Empty.pipeline_parallel_size = 1
     ∧ c8SchedEmpty.scheduler_outputs = { scheduled_seq_groups := [] }
     ∧ c8SchedEmpty.seq_group_metadata_list = []
     ∧ (c8Empty.is_multi_step = true
          → c8SchedEmpty.allow_async_output_proc = false)
     ∧ c8Empty.request_outputs = []
     ∧ c8Empty.output_queue = []
     ∧ c8Empty.cached_scheduler_outputs = {}
     ∧ (∀ q ∈ c8Empty.schedulers, q = []))
    ∧ step c8SchedEmpty (Except.ok []) c8Empty = (Except.ok [], c8Empty) :=
  ⟨⟨rfl, rfl, rfl, by decide, rfl, rfl, rfl, by decide⟩,
   step_empty_engine_noop c8SchedEmpty c8Empty rfl rfl rfl (by decide) rfl rfl
     rfl (by decide)⟩

end VLLM